import Mathlib

/-!
Verification development for the smart-support-routing engine.

Shallow embedding of the core components:
Python floats are modelled as rationals, wall-clock time is passed explicitly
as a rational parameter, Python dicts (insertion ordered, unique keys) are
modelled as association lists, and fallible operations return pairs with a
Bool or Option.  Write-only history logs kept by the source (assignment
history, preemption history) are omitted: they never feed back into behaviour.
-/

namespace SkillRouting

/-- Configured constants, from config.py Settings. -/
def ETA_BASE_SECONDS : ℚ := 60

/-- GENERALIST_THRESHOLD = 0.5 in config.py. -/
def GENERALIST_THRESHOLD : ℚ := 1/2

/-- PREEMPTION_URGENCY_THRESHOLD = 0.85 in config.py. -/
def PREEMPTION_URGENCY_THRESHOLD : ℚ := 85/100

/-- TicketStatus in skill_routing.py. -/
inductive TStatus
  | active
  | paused
  | completed
deriving DecidableEq

/-- AgentStatus in skill_routing.py. -/
inductive AStatus
  | available
  | busy
  | offline
deriving DecidableEq

/-- AssignedTicket dataclass in skill_routing.py. -/
structure AssignedTicket where
  ticket_id : String
  category : String
  urgency : ℚ
  description : String
  status : TStatus
  eta_seconds : ℚ
  started_at : ℚ
  paused_at : Option ℚ
  elapsed_before_pause : ℚ
deriving DecidableEq

/-- Python max(a, b): returns b when it is strictly larger, a otherwise. -/
def pymax (a b : ℚ) : ℚ := if a < b then b else a

/-- AssignedTicket.remaining_eta, with the wall clock passed explicitly. -/
def remainingEta (t : AssignedTicket) (now : ℚ) : ℚ :=
  if t.status = TStatus.completed then 0
  else
    let elapsed :=
      if t.status = TStatus.paused then t.elapsed_before_pause
      else t.elapsed_before_pause + (now - t.started_at)
    pymax 0 (t.eta_seconds - elapsed)

/-- AssignedTicket.is_expired, as the Bool the filter in
_auto_complete_expired consumes. -/
def isExpiredB (t : AssignedTicket) (now : ℚ) : Bool :=
  if t.status = TStatus.active ∧ remainingEta t now ≤ 0 then true else false

/-- AssignedTicket.is_expired as a proposition. -/
def isExpired (t : AssignedTicket) (now : ℚ) : Prop :=
  t.status = TStatus.active ∧ remainingEta t now ≤ 0

instance (t : AssignedTicket) (now : ℚ) : Decidable (isExpired t now) := by
  unfold isExpired; infer_instance

/-- Agent dataclass in skill_routing.py.  The assigned_tickets dict is an
insertion-ordered association of ticket id to record; since the record itself
carries its ticket_id we keep just the list of records. -/
structure Agent where
  agent_id : String
  name : String
  skills : List (String × ℚ)
  capacity : ℤ
  current_load : ℤ
  status : AStatus
  assigned_tickets : List AssignedTicket
deriving DecidableEq

/-- Python dict lookup agent.assigned_tickets[tid] (keys are unique in a real
dict; on a general list we take the first binding, as every dict operation
below does consistently). -/
def dictGet (l : List AssignedTicket) (k : String) : Option AssignedTicket :=
  l.find? (fun t => t.ticket_id == k)

/-- Python membership test tid in agent.assigned_tickets. -/
def dictContains (l : List AssignedTicket) (k : String) : Bool :=
  l.any (fun t => t.ticket_id == k)

/-- Python dict store agent.assigned_tickets[t.ticket_id] = t: replaces the
binding in place when the key exists, appends otherwise. -/
def dictSet (l : List AssignedTicket) (t : AssignedTicket) : List AssignedTicket :=
  match l with
  | [] => [t]
  | x :: xs =>
    if x.ticket_id == t.ticket_id then t :: xs
    else x :: dictSet xs t

/-- Python del agent.assigned_tickets[tid]. -/
def dictDel (l : List AssignedTicket) (k : String) : List AssignedTicket :=
  match l with
  | [] => []
  | x :: xs => if x.ticket_id == k then xs else x :: dictDel xs k

/-- skills.get(key, default). -/
def skillGet (skills : List (String × ℚ)) (k : String) (dflt : ℚ) : ℚ :=
  match skills.find? (fun p => p.1 == k) with
  | some p => p.2
  | none => dflt

/-- Python min(xs, key=f) over a nonempty list: left fold keeping the current
best, replacing it only on a strictly smaller key, so the first minimum wins. -/
def pyMinByAux (f : α → ℚ) : α → List α → α
  | b, [] => b
  | b, x :: xs => pyMinByAux f (if f x < f b then x else b) xs

/-- Python min(xs, key=f), None on an empty list. -/
def pyMinBy (f : α → ℚ) : List α → Option α
  | [] => none
  | x :: xs => some (pyMinByAux f x xs)

/-- Python max(xs, key=f) over a nonempty list: first maximum wins. -/
def pyMaxByAux (f : α → ℚ) : α → List α → α
  | b, [] => b
  | b, x :: xs => pyMaxByAux f (if f b < f x then x else b) xs

/-- Python max(xs, key=f), None on an empty list. -/
def pyMaxBy (f : α → ℚ) : List α → Option α
  | [] => none
  | x :: xs => some (pyMaxByAux f x xs)

/-- Agent.can_accept_ticket. -/
def canAccept (a : Agent) : Prop :=
  a.status = AStatus.available ∧ a.current_load < a.capacity

instance (a : Agent) : Decidable (canAccept a) := by
  unfold canAccept; infer_instance

/-- Agent.accept_ticket. -/
def acceptTicket (a : Agent) (t : AssignedTicket) : Agent × Bool :=
  if canAccept a then
    ({ a with current_load := a.current_load + 1,
              assigned_tickets := dictSet a.assigned_tickets t }, true)
  else (a, false)

/-- Agent.release_ticket.  The argument defaults to None in the source; a
falsy ticket_id (None or the empty string) skips the keyed branch.  The keyed
branch marks the entry Completed and immediately deletes it, so only the
deletion is observable on the table. -/
def releaseTicket (a : Agent) (tid : Option String) : Agent × Bool :=
  match tid with
  | some s =>
    if s ≠ "" ∧ dictContains a.assigned_tickets s then
      ({ a with assigned_tickets := dictDel a.assigned_tickets s,
                current_load :=
                  if 0 < a.current_load then a.current_load - 1 else a.current_load },
       true)
    else if 0 < a.current_load then
      ({ a with current_load := a.current_load - 1 }, true)
    else (a, false)
  | none =>
    if 0 < a.current_load then
      ({ a with current_load := a.current_load - 1 }, true)
    else (a, false)

/-- Agent.pause_ticket. -/
def pauseTicket (a : Agent) (tid : String) (now : ℚ) : Agent × Bool :=
  match dictGet a.assigned_tickets tid with
  | some t =>
    if t.status = TStatus.active then
      let t2 := { t with elapsed_before_pause := t.elapsed_before_pause + (now - t.started_at),
                         paused_at := some now,
                         status := TStatus.paused }
      ({ a with assigned_tickets := dictSet a.assigned_tickets t2 }, true)
    else (a, false)
  | none => (a, false)

/-- Agent.resume_ticket. -/
def resumeTicket (a : Agent) (tid : String) (now : ℚ) : Agent × Bool :=
  match dictGet a.assigned_tickets tid with
  | some t =>
    if t.status = TStatus.paused then
      let t2 := { t with started_at := now,
                         paused_at := none,
                         status := TStatus.active }
      ({ a with assigned_tickets := dictSet a.assigned_tickets t2 }, true)
    else (a, false)
  | none => (a, false)

/-- Agent.get_lowest_urgency_active_ticket. -/
def getLowestUrgencyActive (a : Agent) : Option AssignedTicket :=
  pyMinBy (fun t => t.urgency)
    (a.assigned_tickets.filter (fun t => t.status = TStatus.active))

/-- Agent.is_generalist. -/
def isGeneralist (a : Agent) : Prop :=
  ∀ c ∈ ["billing", "technical", "legal"], GENERALIST_THRESHOLD ≤ skillGet a.skills c 0

instance (a : Agent) : Decidable (isGeneralist a) := by
  unfold isGeneralist; infer_instance

/-- TicketRequest dataclass. -/
structure TicketRequest where
  ticket_id : String
  category : String
  urgency : ℚ
  description : String
  required_skills : List String
deriving DecidableEq

/-- The AssignedTicket built by the routing coordinator when it accepts a
ticket (status Active, ETA from compute_eta, started_at = now). -/
def mkAssigned (t : TicketRequest) (now : ℚ) : AssignedTicket where
  ticket_id := t.ticket_id
  category := t.category
  urgency := t.urgency
  description := t.description
  status := TStatus.active
  eta_seconds := ETA_BASE_SECONDS
  started_at := now
  paused_at := none
  elapsed_before_pause := 0

/-- AgentRegistry._resume_next_paused. -/
def resumeNextPaused (a : Agent) (now : ℚ) : Agent :=
  match pyMaxBy (fun t => t.urgency)
      (a.assigned_tickets.filter (fun t => t.status = TStatus.paused)) with
  | some t => (resumeTicket a t.ticket_id now).1
  | none => a

/-- The per-agent body of AgentRegistry._auto_complete_expired: the expired
ids are collected first, then each is released and the paused queue resumed. -/
def autoCompleteAgent (now : ℚ) (a : Agent) : Agent :=
  let expired := (a.assigned_tickets.filter (fun t => isExpiredB t now)).map
    (fun t => t.ticket_id)
  expired.foldl (fun acc tid => resumeNextPaused (releaseTicket acc (some tid)).1 now) a

/-- AgentRegistry._auto_complete_expired over the whole registry (each agent
is mutated independently). -/
def autoComplete (agents : List Agent) (now : ℚ) : List Agent :=
  agents.map (autoCompleteAgent now)

/-- AgentRegistry.compute_eta: a constant base for every urgency. -/
def computeEta (_urgency : ℚ) : ℚ := ETA_BASE_SECONDS

/-- The skill_score part of AgentRegistry._calculate_agent_score. -/
def calcSkillScore (a : Agent) (t : TicketRequest) : ℚ :=
  if t.required_skills ≠ [] then
    ((t.required_skills.map (fun s => skillGet a.skills s 0)).sum) / t.required_skills.length
  else skillGet a.skills t.category.toLower (1/2)

/-- AgentRegistry._calculate_agent_score. -/
def calculateAgentScore (a : Agent) (t : TicketRequest) : ℚ :=
  let s0 := calcSkillScore a t
  let skill_score := if isGeneralist a ∧ s0 < GENERALIST_THRESHOLD then GENERALIST_THRESHOLD else s0
  let load_factor : ℚ := 1 - (a.current_load : ℚ) / (a.capacity : ℚ)
  let urgency_weight : ℚ := 7/10 + (3/10) * t.urgency
  skill_score * urgency_weight + load_factor * (1 - urgency_weight)

/-- The argmax loop of route_ticket_with_preemption: the source first filters
the can-accept agents and then scans them keeping the first strictly best
score (best_score starts at negative infinity, so the first candidate always
wins).  We scan the full list with the filter fused in, tracking the original
index so the chosen agent can be written back. -/
def selectBestAux (t : TicketRequest) :
    List Agent → ℕ → Option (ℕ × Agent × ℚ) → Option (ℕ × Agent × ℚ)
  | [], _, best => best
  | a :: rest, i, best =>
    let best2 :=
      if canAccept a then
        match best with
        | none => some (i, a, calculateAgentScore a t)
        | some (j, b, bs) =>
          if calculateAgentScore a t > bs then some (i, a, calculateAgentScore a t)
          else some (j, b, bs)
      else best
    selectBestAux t rest (i + 1) best2

def selectBest (agents : List Agent) (t : TicketRequest) : Option (ℕ × Agent × ℚ) :=
  selectBestAux t agents 0 none

/-- The victim-selection loop of AgentRegistry._preempt_for_ticket: walk the
agents in registration order, skip Offline ones, take each agent's
lowest-urgency Active ticket, and keep the first strictly lowest candidate
that is also strictly below the incoming urgency (lowest_urgency starts at
positive infinity, modelled by the none accumulator).
victimStep is one iteration of the loop over agent a at index i. -/
def victimStep (u : ℚ) (i : ℕ) (a : Agent) (best : Option (ℕ × AssignedTicket)) :
    Option (ℕ × AssignedTicket) :=
  if a.status = AStatus.offline then best
  else
    match getLowestUrgencyActive a with
    | none => best
    | some tk =>
      match best with
      | none => if tk.urgency < u then some (i, tk) else none
      | some (j, cur) =>
        if tk.urgency < cur.urgency ∧ tk.urgency < u then some (i, tk)
        else some (j, cur)

def selectVictimAux (u : ℚ) :
    List Agent → ℕ → Option (ℕ × AssignedTicket) → Option (ℕ × AssignedTicket)
  | [], _, best => best
  | a :: rest, i, best => selectVictimAux u rest (i + 1) (victimStep u i a best)

def selectVictim (agents : List Agent) (u : ℚ) : Option (ℕ × AssignedTicket) :=
  selectVictimAux u agents 0 none

/-- AgentRegistry._preempt_for_ticket (minus the history logs and logging). -/
def preemptForTicket (agents : List Agent) (t : TicketRequest) (now : ℚ) :
    List Agent × Option String × Option String :=
  match selectVictim agents t.urgency with
  | none => (agents, none, none)
  | some (i, victim) =>
    match agents[i]? with
    | none => (agents, none, none)
    | some a =>
      let a1 := (pauseTicket a victim.ticket_id now).1
      let a2 := { a1 with current_load := a1.current_load - 1 }
      let a3 := (acceptTicket a2 (mkAssigned t now)).1
      (agents.set i a3, some a.agent_id, some victim.ticket_id)

/-- AgentRegistry.route_ticket_with_preemption. -/
def routeTicketWithPreemption (agents : List Agent) (t : TicketRequest) (now : ℚ) :
    List Agent × Option String × Option String :=
  let reg1 := autoComplete agents now
  match selectBest reg1 t with
  | some (i, a, _score) =>
    (reg1.set i (acceptTicket a (mkAssigned t now)).1, some a.agent_id, none)
  | none =>
    if PREEMPTION_URGENCY_THRESHOLD ≤ t.urgency then preemptForTicket reg1 t now
    else (reg1, none, none)

/-- AgentRegistry.route_ticket. -/
def routeTicket (agents : List Agent) (t : TicketRequest) (now : ℚ) :
    List Agent × Option String :=
  let r := routeTicketWithPreemption agents t now
  (r.1, r.2.1)

/-- AgentRegistry.complete_ticket. -/
def completeTicket (agents : List Agent) (agent_id tid : String) (now : ℚ) :
    List Agent × Bool :=
  match (agents.enum).find? (fun p => p.2.agent_id == agent_id) with
  | none => (agents, false)
  | some (i, a) =>
    let r := releaseTicket a (some tid)
    if r.2 then (agents.set i (resumeNextPaused r.1 now), true)
    else (agents.set i r.1, false)

/-- The invariant of claim C1: an agent's current_load equals the number of
non-Completed rows of its assigned-tickets table.  The second conjunct (no
row is ever stored with status Completed: release marks-and-deletes in one
step) is needed for the invariant to be inductive. -/
def loadInv (a : Agent) : Prop :=
  a.current_load = ((a.assigned_tickets.filter (fun t => t.status ≠ TStatus.completed)).length : ℤ)
  ∧ ∀ t ∈ a.assigned_tickets, t.status ≠ TStatus.completed

instance (a : Agent) : Decidable (loadInv a) := by
  unfold loadInv; infer_instance

/-- Per-agent well-formedness: ticket ids within one agent's table are
pairwise distinct (guaranteed by the Python dict). -/
def wfAgent (a : Agent) : Prop :=
  (a.assigned_tickets.map (fun t => t.ticket_id)).Nodup

instance (a : Agent) : Decidable (wfAgent a) := by
  unfold wfAgent; infer_instance

def tkX : AssignedTicket := ⟨"TX", "technical", 1/10, "x", TStatus.active, 60, 100, none, 0⟩
def tkY : AssignedTicket := ⟨"TY", "technical", 1/10, "y", TStatus.active, 60, 50, none, 0⟩
def agA : Agent := ⟨"A", "Alice", [("technical", 9/10)], 1, 1, AStatus.available, [tkX]⟩
def agB : Agent := ⟨"B", "Bob", [("technical", 9/10)], 1, 1, AStatus.available, [tkY]⟩
def reqHot : TicketRequest := ⟨"TNEW", "technical", 9/10, "hot", []⟩
def reqMild : TicketRequest := ⟨"TMILD", "technical", 1/2, "mild", []⟩
def agBusy : Agent := ⟨"C", "Carol", [("technical", 9/10)], 5, 0, AStatus.busy, []⟩

/-- The Paused rows of an agent's table, in insertion order. -/
def pausedList (a : Agent) : List AssignedTicket :=
  a.assigned_tickets.filter (fun t => t.status = TStatus.paused)

/-- The entry written back by resume_ticket. -/
def resumedOf (p : AssignedTicket) (now : ℚ) : AssignedTicket :=
  { p with started_at := now, paused_at := none, status := TStatus.active }

def tkP : AssignedTicket := ⟨"TP", "billing", 3/10, "p", TStatus.paused, 60, 0, some 2, 2⟩
def agW : Agent := ⟨"W", "Wil", [("billing", 1/2)], 2, 1, AStatus.available, [tkP]⟩
def agD : Agent := ⟨"D", "Dana", [("technical", 7/10)], 2, 0, AStatus.available, []⟩

end SkillRouting

namespace Breaker

/-- CircuitState in circuit_breaker.py. -/
inductive CState
  | closed
  | opened
  | halfOpen
deriving DecidableEq

/-- CircuitBreakerConfig dataclass (defaults as in the source). -/
structure Config where
  failure_threshold : ℕ
  success_threshold : ℕ
  timeout_seconds : ℚ
  latency_threshold_ms : ℚ
deriving DecidableEq

/-- The default CircuitBreakerConfig (latency threshold from
settings.CIRCUIT_BREAKER_THRESHOLD_MS = 500). -/
def defaultConfig : Config := ⟨5, 2, 30, 500⟩

/-- CircuitBreaker mutable state.  The stored field _state is read through
the lazy state property. -/
structure CB where
  config : Config
  state : CState
  failure_count : ℕ
  success_count : ℕ
  last_failure_time : Option ℚ
  latency_history : List ℚ
deriving DecidableEq

/-- A freshly constructed CircuitBreaker. -/
def mkCB (cfg : Config) : CB := ⟨cfg, CState.closed, 0, 0, none, []⟩

/-- The bounded capacity of the latency ring (_max_latency_history). -/
def maxLatencyHistory : ℕ := 100

/-- CircuitBreaker._should_attempt_reset. -/
def shouldAttemptReset (cb : CB) (now : ℚ) : Prop :=
  match cb.last_failure_time with
  | none => True
  | some t0 => cb.config.timeout_seconds ≤ now - t0

instance (cb : CB) (now : ℚ) : Decidable (shouldAttemptReset cb now) := by
  unfold shouldAttemptReset
  cases cb.last_failure_time <;> infer_instance

/-- The state property: lazily transitions Open to HalfOpen when the reset
timeout has elapsed, and returns the (possibly updated) state. -/
def readState (cb : CB) (now : ℚ) : CState × CB :=
  if cb.state = CState.opened ∧ shouldAttemptReset cb now then
    (CState.halfOpen, { cb with state := CState.halfOpen })
  else (cb.state, cb)

/-- CircuitBreaker._trigger_open. -/
def triggerOpen (cb : CB) : CB :=
  if cb.state ≠ CState.opened then { cb with state := CState.opened } else cb

/-- CircuitBreaker.record_success. -/
def recordSuccess (cb : CB) : CB :=
  if cb.state = CState.halfOpen then
    let cb1 := { cb with success_count := cb.success_count + 1 }
    if cb1.config.success_threshold ≤ cb1.success_count then
      { cb1 with state := CState.closed, failure_count := 0, success_count := 0 }
    else cb1
  else { cb with failure_count := 0 }

/-- CircuitBreaker.record_failure.  The latency argument defaults to None;
Python's `if latency_ms and latency_ms > threshold` treats None and 0.0 as
falsy. -/
def recordFailure (cb : CB) (latency_ms : Option ℚ) (now : ℚ) : CB :=
  let cb1 := { cb with failure_count := cb.failure_count + 1,
                       last_failure_time := some now }
  let cb2 : CB :=
    match latency_ms with
    | some m =>
      if m ≠ 0 ∧ cb1.config.latency_threshold_ms < m then triggerOpen cb1 else cb1
    | none => cb1
  if cb2.config.failure_threshold ≤ cb2.failure_count then triggerOpen cb2 else cb2

/-- The latency ring after appending one sample: append, then pop the oldest
when the capacity of 100 is exceeded. -/
def newRing (cb : CB) (latency_ms : ℚ) : List ℚ :=
  let h1 := cb.latency_history ++ [latency_ms]
  if maxLatencyHistory < h1.length then h1.drop 1 else h1

/-- CircuitBreaker.record_latency: append to the ring (drop-oldest past 100),
then if at least 10 samples are held and their mean exceeds the latency
threshold, record a failure carrying that mean. -/
def recordLatency (cb : CB) (latency_ms : ℚ) (now : ℚ) : CB :=
  let h2 := newRing cb latency_ms
  let cb1 := { cb with latency_history := h2 }
  if 10 ≤ h2.length ∧ cb1.config.latency_threshold_ms < h2.sum / h2.length then
    recordFailure cb1 (some (h2.sum / h2.length)) now
  else cb1

/-- CircuitBreaker.is_available. -/
def isAvailable (cb : CB) (now : ℚ) : Prop :=
  (readState cb now).1 ≠ CState.opened

/-- A Closed breaker whose ring already holds nine slow samples. -/
def cbNine : CB :=
  ⟨defaultConfig, CState.closed, 0, 0, none, List.replicate 9 600⟩

/-- A HalfOpen breaker reached after a single latency-tripped failure (the
consecutive-failure counter is 1). -/
def cbHalf : CB :=
  ⟨defaultConfig, CState.halfOpen, 1, 0, some 0, []⟩

end Breaker

namespace Dedup

/-- SIMILARITY_THRESHOLD = 0.9 in config.py. -/
def SIMILARITY_THRESHOLD : ℚ := 9/10

/-- DUPLICATE_TIME_WINDOW_MINUTES = 5 in config.py (we measure created_at in
minutes). -/
def DUPLICATE_TIME_WINDOW_MINUTES : ℚ := 5

/-- DUPLICATE_COUNT_THRESHOLD = 10 in config.py. -/
def DUPLICATE_COUNT_THRESHOLD : ℕ := 10

/-- TicketEntry in deduplication.py, parameterised by the embedding type E
(the embedding service is an external ML capability; the deduplicator only
ever feeds embeddings to the cosine-similarity function). -/
structure TicketEntry (E : Type) where
  ticket_id : String
  subject : String
  description : String
  embedding : E
  created_at : ℚ
  processed : Bool
deriving DecidableEq

/-- MasterIncident in deduplication.py. -/
structure MasterIncident where
  master_id : String
  ticket_ids : List String
  similarity_score : ℚ
  category : String
  created_at : ℚ
  suppressed_count : ℕ
deriving DecidableEq

/-- SemanticDeduplicator state: the tracked ticket list and the master
incident dict (insertion ordered, keyed by the id stored in each incident).
nextUid is the fresh-name supply standing in for uuid4. -/
structure DState (E : Type) where
  tickets : List (TicketEntry E)
  masters : List MasterIncident
  nextUid : ℕ
deriving DecidableEq

/-- The empty deduplicator. -/
def emptyD (E : Type) : DState E := ⟨[], [], 0⟩

/-- Fresh master id, standing in for f"MASTER-(uuid4 hex)". -/
def masterId (n : ℕ) : String := "MASTER-" ++ toString n

/-- List-of-chars starts-with test. -/
def startsWithL : List Char → List Char → Bool
  | [], _ => true
  | _ :: _, [] => false
  | a :: as, b :: bs => a == b && startsWithL as bs

/-- List-of-chars substring test. -/
def containsSubL (needle : List Char) : List Char → Bool
  | [] => needle.isEmpty
  | b :: bs => startsWithL needle (b :: bs) || containsSubL needle bs

/-- Python `needle in hay` on strings. -/
def strContains (hay needle : String) : Bool := containsSubL needle.data hay.data

/-- The keyword table of SemanticDeduplicator._infer_category. -/
def categoryKeywords : List (String × List String) :=
  [("Billing", ["invoice", "payment", "bill", "charge", "refund"]),
   ("Technical", ["error", "bug", "crash", "broken", "api", "server"]),
   ("Legal", ["legal", "compliance", "gdpr", "privacy", "contract"])]

/-- defaultdict(int) increment preserving first-insertion order. -/
def bumpCount : List (String × ℕ) → String → List (String × ℕ)
  | [], c => [(c, 1)]
  | (k, n) :: rest, c =>
    if k == c then (k, n + 1) :: rest else (k, n) :: bumpCount rest c

/-- Generalised Python max(xs, key=f) over a nonempty list (first maximum
wins); mirrors SkillRouting.pyMaxBy for natural-number keys. -/
def pyMaxByNatAux (f : α → ℕ) : α → List α → α
  | b, [] => b
  | b, x :: xs => pyMaxByNatAux f (if f b < f x then x else b) xs

def pyMaxByNat (f : α → ℕ) : List α → Option α
  | [] => none
  | x :: xs => some (pyMaxByNatAux f x xs)

/-- SemanticDeduplicator._infer_category. -/
def inferCategory (tickets : List (TicketEntry E)) : String :=
  let counts := tickets.foldl
    (fun acc tk =>
      let text := (tk.subject ++ " " ++ tk.description).toLower
      categoryKeywords.foldl
        (fun acc2 ck =>
          if ck.2.any (fun kw => strContains text kw) then bumpCount acc2 ck.1 else acc2)
        acc)
    []
  match pyMaxByNat (fun p => p.2) counts with
  | some p => p.1
  | none => "General"

/-- The per-entry condition of _find_similar_in_window: skip entries older
than the window or already processed, keep those whose cosine similarity
with the new embedding strictly exceeds the threshold. -/
def entryMatches (cos : E → E → ℚ) (newEmb : E) (now : ℚ) (t : TicketEntry E) : Bool :=
  if t.created_at < now - DUPLICATE_TIME_WINDOW_MINUTES ∨ t.processed = true then false
  else if SIMILARITY_THRESHOLD < cos newEmb t.embedding then true else false

/-- SemanticDeduplicator._find_similar_in_window. -/
def findSimilarInWindow (cos : E → E → ℚ) (st : DState E) (newEmb : E) (now : ℚ) :
    List (TicketEntry E) :=
  st.tickets.filter (entryMatches cos newEmb now)

/-- SemanticDeduplicator._cleanup_old_tickets: keep entries strictly newer
than now minus twice the window. -/
def cleanupOld (l : List (TicketEntry E)) (now : ℚ) : List (TicketEntry E) :=
  l.filter (fun t =>
    if now - DUPLICATE_TIME_WINDOW_MINUTES * 2 < t.created_at then true else false)

/-- The inner double loop of add_ticket linking to an existing master: for
each similar ticket in order, scan the master dict in insertion order and
return the index of the first master containing that ticket id. -/
def findMasterIdx : List MasterIncident → String → ℕ → Option ℕ
  | [], _, _ => none
  | m :: rest, tid, j =>
    if tid ∈ m.ticket_ids then some j else findMasterIdx rest tid (j + 1)

def findLink (masters : List MasterIncident) : List (TicketEntry E) → Option ℕ
  | [] => none
  | s :: rest =>
    match findMasterIdx masters s.ticket_id 0 with
    | some j => some j
    | none => findLink masters rest

/-- SemanticDeduplicator.add_ticket.  The embedding service is passed in as
getEmb and cos.  The master-creation branch of _create_master_incident is
inlined: marking the similar tickets processed mutates the very objects held
in self._tickets, which the filter predicate identifies exactly. -/
def addTicket (getEmb : String → E) (cos : E → E → ℚ) (st : DState E)
    (ticket_id subject description : String) (now : ℚ) :
    (Bool × Option String) × DState E :=
  let text := subject ++ " " ++ description
  let emb := getEmb text
  let entry : TicketEntry E := ⟨ticket_id, subject, description, emb, now, false⟩
  let similar := st.tickets.filter (entryMatches cos emb now)
  let fallthrough : (Bool × Option String) × DState E :=
    ((false, none),
     { tickets := cleanupOld (st.tickets ++ [entry]) now,
       masters := st.masters, nextUid := st.nextUid })
  if similar.length ≠ 0 then
    if DUPLICATE_COUNT_THRESHOLD ≤ similar.length then
      let similarities := similar.map (fun t => cos emb t.embedding)
      let avg : ℚ :=
        if similarities.length ≠ 0 then similarities.sum / similarities.length else 0
      let tids := similar.map (fun t => t.ticket_id) ++ [ticket_id]
      let m : MasterIncident :=
        ⟨masterId st.nextUid, tids, avg, inferCategory similar, now, tids.length - 1⟩
      ((true, some m.master_id),
       { tickets := st.tickets.map
           (fun t => if entryMatches cos emb now t then { t with processed := true } else t),
         masters := st.masters ++ [m],
         nextUid := st.nextUid + 1 })
    else
      match findLink st.masters similar with
      | some j =>
        match st.masters[j]? with
        | some m =>
          ((true, some m.master_id),
           { tickets := st.tickets,
             masters := st.masters.set j
               { m with ticket_ids := m.ticket_ids ++ [ticket_id],
                        suppressed_count := m.suppressed_count + 1 },
             nextUid := st.nextUid })
        | none => fallthrough
      | none => fallthrough
  else fallthrough

/-- Folding a list of submissions (ticket_id, subject, description, time)
through add_ticket, collecting the results. -/
def runAdds (getEmb : String → E) (cos : E → E → ℚ) :
    DState E → List (String × String × String × ℚ) →
    List (Bool × Option String) × DState E
  | st, [] => ([], st)
  | st, s :: rest =>
    let r := addTicket getEmb cos st s.1 s.2.1 s.2.2.1 s.2.2.2
    let rr := runAdds getEmb cos r.2 rest
    (r.1 :: rr.1, rr.2)

/-- The TicketEntry that add_ticket builds for a submission. -/
def entryOf (getEmb : String → E) (s : String × String × String × ℚ) : TicketEntry E :=
  ⟨s.1, s.2.1, s.2.2.1, getEmb (s.2.1 ++ " " ++ s.2.2.1), s.2.2.2, false⟩

/-- Ten mutually similar submissions at time 0 (under the constant-1 cosine
every pair is similar and in-window). -/
def subsC2 : List (String × String × String × ℚ) :=
  [("T1", "a", "b", 0), ("T2", "a", "b", 0), ("T3", "a", "b", 0), ("T4", "a", "b", 0),
   ("T5", "a", "b", 0), ("T6", "a", "b", 0), ("T7", "a", "b", 0), ("T8", "a", "b", 0),
   ("T9", "a", "b", 0), ("T10", "a", "b", 0)]

/-- The eleventh similar submission. -/
def s11C2 : String × String × String × ℚ := ("T11", "a", "b", 0)

end Dedup

namespace PQ

/-- Ticket dataclass in ticket_queue/priority_queue.py.  dataclass(order=True)
compares and equates instances by the compare-enabled fields
(priority, timestamp) only; the remaining fields are payload (we omit the
created_at default and the metadata dict).  __post_init__ stores the negated
priority, see mkTicket. -/
structure Ticket where
  priority : ℚ
  timestamp : ℚ
  ticket_id : String
  subject : String
  description : String
  category : String
  urgency : ℚ
deriving DecidableEq

/-- The Ticket constructor: __post_init__ negates the priority for max-heap
behaviour. -/
def mkTicket (priority timestamp : ℚ) (ticket_id subject description category : String)
    (urgency : ℚ) : Ticket :=
  ⟨-priority, timestamp, ticket_id, subject, description, category, urgency⟩

/-- dataclass ordering: lexicographic on (priority, timestamp). -/
def tklt (a b : Ticket) : Prop :=
  a.priority < b.priority ∨ (a.priority = b.priority ∧ a.timestamp < b.timestamp)

instance (a b : Ticket) : Decidable (tklt a b) := by
  unfold tklt; infer_instance

/-- dataclass equality: on the compare fields (priority, timestamp) only. -/
def teq (a b : Ticket) : Prop :=
  a.priority = b.priority ∧ a.timestamp = b.timestamp

instance (a b : Ticket) : Decidable (teq a b) := by
  unfold teq; infer_instance

/-- Out-of-range placeholder for positional list reads (never observable on
in-range indices). -/
def dfltTicket : Ticket := ⟨0, 0, "", "", "", "", 0⟩

/-- heap[i]. -/
def lget (l : List Ticket) (i : ℕ) : Ticket := l.getD i dfltTicket

/-- The loop of heapq._siftdown: bubble the new item towards the root,
moving larger parents down; fuel ≥ pos suffices since pos strictly
decreases. -/
def siftdownLoop (newitem : Ticket) (startpos : ℕ) :
    ℕ → List Ticket → ℕ → List Ticket
  | 0, heap, pos => heap.set pos newitem
  | fuel + 1, heap, pos =>
    if startpos < pos then
      let parentpos := (pos - 1) / 2
      let parent := lget heap parentpos
      if tklt newitem parent then
        siftdownLoop newitem startpos fuel (heap.set pos parent) parentpos
      else heap.set pos newitem
    else heap.set pos newitem

/-- heapq._siftdown(heap, startpos, pos). -/
def pySiftdown (heap : List Ticket) (startpos pos : ℕ) : List Ticket :=
  siftdownLoop (lget heap pos) startpos pos heap pos

/-- heapq.heappush. -/
def heappush (heap : List Ticket) (item : Ticket) : List Ticket :=
  let h := heap ++ [item]
  pySiftdown h 0 (h.length - 1)

/-- The loop of heapq._siftup: move the smaller child up until a leaf is
reached, returning the heap and the final pos; fuel ≥ length suffices since
pos strictly increases below length. -/
def siftupLoop : ℕ → List Ticket → ℕ → List Ticket × ℕ
  | 0, heap, pos => (heap, pos)
  | fuel + 1, heap, pos =>
    let endpos := heap.length
    let childpos := 2 * pos + 1
    if childpos < endpos then
      let rightpos := childpos + 1
      let childpos2 :=
        if rightpos < endpos ∧ ¬ tklt (lget heap childpos) (lget heap rightpos) then rightpos
        else childpos
      siftupLoop fuel (heap.set pos (lget heap childpos2)) childpos2
    else (heap, pos)

/-- heapq._siftup(heap, pos): sink the vacated root to a leaf, plant the new
item there and let _siftdown restore it upwards. -/
def pySiftup (heap : List Ticket) (pos : ℕ) : List Ticket :=
  let startpos := pos
  let newitem := lget heap pos
  let r := siftupLoop heap.length heap pos
  siftdownLoop newitem startpos r.2 (r.1.set r.2 newitem) r.2

/-- heapq.heappop.  Python raises IndexError on an empty heap; every caller
in priority_queue.py guards with `if not self._heap`, so the none case of the
model is never reached through the queue operations. -/
def heappop (heap : List Ticket) : Option Ticket × List Ticket :=
  match heap.getLast? with
  | none => (none, heap)
  | some lastelt =>
    let h := heap.dropLast
    if h.length ≠ 0 then
      let returnitem := lget h 0
      (some returnitem, pySiftup (h.set 0 lastelt) 0)
    else (some lastelt, h)

/-- heapq.heapify: _siftup on each internal node, last first. -/
def pyHeapify (heap : List Ticket) : List Ticket :=
  ((List.range (heap.length / 2)).reverse).foldl (fun h i => pySiftup h i) heap

/-- list.remove(t) with the ValueError swallowed
(PriorityQueue._remove_ticket): drop the first element equal to t under the
dataclass equality. -/
def removeFirstEq (heap : List Ticket) (t : Ticket) : List Ticket :=
  heap.eraseP (fun x => if teq x t then true else false)

/-- PriorityQueue state: the heap list and the by-id index dict. -/
structure PQState where
  heap : List Ticket
  index : List (String × Ticket)
deriving DecidableEq

def emptyPQ : PQState := ⟨[], []⟩

/-- self._ticket_index.get(tid). -/
def idxGet (l : List (String × Ticket)) (k : String) : Option Ticket :=
  (l.find? (fun p => p.1 == k)).map (fun p => p.2)

def idxContains (l : List (String × Ticket)) (k : String) : Bool :=
  l.any (fun p => p.1 == k)

/-- self._ticket_index[k] = t. -/
def idxSet (l : List (String × Ticket)) (k : String) (t : Ticket) :
    List (String × Ticket) :=
  match l with
  | [] => [(k, t)]
  | x :: xs => if x.1 == k then (k, t) :: xs else x :: idxSet xs k t

/-- del self._ticket_index[k]. -/
def idxDel (l : List (String × Ticket)) (k : String) : List (String × Ticket) :=
  match l with
  | [] => []
  | x :: xs => if x.1 == k then xs else x :: idxDel xs k

/-- PriorityQueue.enqueue. -/
def enqueue (st : PQState) (t : Ticket) : PQState :=
  { heap := heappush st.heap t, index := idxSet st.index t.ticket_id t }

/-- PriorityQueue.dequeue. -/
def dequeue (st : PQState) : Option Ticket × PQState :=
  if st.heap.length = 0 then (none, st)
  else
    match heappop st.heap with
    | (none, _) => (none, st)
    | (some t, h) =>
      (some t,
       { heap := h,
         index := if idxContains st.index t.ticket_id then idxDel st.index t.ticket_id
                  else st.index })

/-- PriorityQueue.update_priority: rebuild a Ticket with the new priority
(through the negating constructor), remove the old entry from the heap,
re-heapify, and re-enqueue. -/
def updatePriority (st : PQState) (tid : String) (new_priority : ℚ) : PQState × Bool :=
  match idxGet st.index tid with
  | none => (st, false)
  | some old =>
    let newT := mkTicket new_priority old.timestamp old.ticket_id old.subject
      old.description old.category old.urgency
    let h1 := pyHeapify (removeFirstEq st.heap old)
    (enqueue { heap := h1, index := st.index } newT, true)

/-- PriorityQueue.size. -/
def sizePQ (st : PQState) : ℕ := st.heap.length

/-- PriorityQueue.clear. -/
def clearPQ : PQState := ⟨[], []⟩

/-- The public operations of claim C8 (enqueue arguments are the constructor
arguments, the negation happening inside mkTicket). -/
inductive Op
  | enq (priority timestamp : ℚ) (tid subject description category : String) (urgency : ℚ)
  | deq
  | upd (tid : String) (p : ℚ)
  | clear

def applyOp (st : PQState) : Op → PQState
  | Op.enq p ts tid su d c u => enqueue st (mkTicket p ts tid su d c u)
  | Op.deq => (dequeue st).2
  | Op.upd tid p => (updatePriority st tid p).1
  | Op.clear => clearPQ

def applyOps (st : PQState) (ops : List Op) : PQState :=
  ops.foldl applyOp st

/-- The timestamps currently stored in the heap. -/
def tsOf (st : PQState) : List ℚ := st.heap.map (fun t => t.timestamp)

/-- The queue invariant of claim C8, strengthened so it is inductive: the
heap is a permutation of the index's values (hence size() = |index| and both
hold the same multiset of tickets), the index keys are pairwise distinct,
every index entry is keyed by its ticket's id, and the heap's timestamps are
pairwise distinct (this is what makes list.remove under the
(priority, timestamp) dataclass equality remove the intended element). -/
def Inv (st : PQState) : Prop :=
  st.heap.Perm (st.index.map (fun p => p.2)) ∧
  (st.index.map (fun p => p.1)).Nodup ∧
  (∀ p ∈ st.index, p.2.ticket_id = p.1) ∧
  (st.heap.map (fun t => t.timestamp)).Nodup

/-- Freshness side condition of an operation against the current state: an
enqueue must carry a ticket id not in the index and a timestamp not in the
heap.  Dequeue, update_priority and clear are unrestricted. -/
def opOK (st : PQState) : Op → Prop
  | Op.enq _ ts tid _ _ _ _ => idxContains st.index tid = false ∧ ts ∉ tsOf st
  | _ => True

def opsOK : PQState → List Op → Prop
  | _, [] => True
  | st, op :: rest => opOK st op ∧ opsOK (applyOp st op) rest

/-- The counterexample trace of claim C8: two tickets with distinct ids but
equal priority and timestamp, a priority update, then two dequeues. -/
def ce8ops : List Op :=
  [Op.enq 1 0 "b" "s" "d" "c" 0, Op.enq 1 0 "a" "s" "d" "c" 0,
   Op.upd "a" 2, Op.deq, Op.deq]

end PQ

namespace Worker

/-- HIGH_URGENCY_THRESHOLD = 0.8 in config.py. -/
def HIGH_URGENCY_THRESHOLD : ℚ := 4/5

/-- TicketMessage dataclass in broker/async_broker.py (metadata omitted,
created_at kept as a string). -/
structure TicketMessage where
  ticket_id : String
  subject : String
  description : String
  category : String
  urgency : ℚ
  sentiment_score : ℚ
  created_at : String
deriving DecidableEq

/-- The broker-side Redis keys as abstract collections: the pending queue
(lpush at the head, brpoplpush consumes from the tail), the processing set of
members, the completed set, and the dead-letter list (lpush prepends). -/
structure BrokerState where
  queue : List TicketMessage
  processing : List String
  completed : List String
  deadLetter : List (String × String)
deriving DecidableEq

/-- Set insert (Redis SADD): no duplicates. -/
def saddL (l : List String) (x : String) : List String :=
  if x ∈ l then l else l ++ [x]

/-- Set removal (Redis SREM). -/
def sremL (l : List String) (x : String) : List String :=
  l.filter (fun y => y ≠ x)

/-- The JSON blob brpoplpush moves into the processing-set key.  The claims
only inspect membership of plain ticket ids, so the serialisation is
abstracted into an encoding distinct from every plain id. -/
def serializeMsg (m : TicketMessage) : String :=
  "json|" ++ m.ticket_id ++ "|" ++ m.subject

/-- AsyncBroker.publish_ticket: atomic lpush to the queue plus sadd of the
ticket id into the processing set. -/
def publishTicket (b : BrokerState) (m : TicketMessage) : BrokerState :=
  { b with queue := m :: b.queue, processing := saddL b.processing m.ticket_id }

/-- AsyncBroker.consume_ticket: brpoplpush moves the serialised message from
the queue tail into the processing-set key; None when the queue is empty. -/
def consumeTicket (b : BrokerState) : Option TicketMessage × BrokerState :=
  match b.queue.getLast? with
  | none => (none, b)
  | some m =>
    (some m,
     { b with queue := b.queue.dropLast,
              processing := saddL b.processing (serializeMsg m) })

/-- AsyncBroker.complete_ticket: srem from processing, sadd into completed. -/
def completeTicketB (b : BrokerState) (tid : String) : BrokerState :=
  { b with processing := sremL b.processing tid,
           completed := saddL b.completed tid }

/-- AsyncBroker.fail_ticket: srem from processing and, when the error text is
truthy, lpush the record onto the dead-letter list. -/
def failTicketB (b : BrokerState) (tid err : String) : BrokerState :=
  { b with processing := sremL b.processing tid,
           deadLetter := if err ≠ "" then (tid, err) :: b.deadLetter else b.deadLetter }

/-- The result of ml_router.classify consumed by worker.process_ticket. -/
structure ClassifyResult where
  category : String
  urgency : ℚ
  sentiment_score : ℚ
  model_used : String
  is_master_incident : Bool
  master_incident_id : Option String
deriving DecidableEq

/-- The mutable world the worker loop touches: the broker, the agent
registry, and the set of tickets for which a webhook alert went out. -/
structure World where
  broker : BrokerState
  registry : List SkillRouting.Agent
  notified : List String
deriving DecidableEq

/-- worker.process_ticket, with the two I/O suspensions passed in as
outcomes: classifyRes is what ml_router.classify returns or raises, and
notifyRes what webhook_notifier.send_alert returns or raises.  Classification
happens first; a Master Incident link suppresses the webhook; otherwise the
webhook fires for urgency strictly above the threshold; then skill-based
routing runs.  An exception anywhere aborts the remaining steps. -/
def processTicket (classifyRes : Except String ClassifyResult)
    (notifyRes : Except String Bool) (reg : List SkillRouting.Agent)
    (msg : TicketMessage) (now : ℚ) :
    Except String (List SkillRouting.Agent × List String × Option String) :=
  match classifyRes with
  | Except.error e => Except.error e
  | Except.ok r =>
    let notifyStep : Except String (List String) :=
      if r.is_master_incident = true ∧ r.master_incident_id ≠ none then Except.ok []
      else if HIGH_URGENCY_THRESHOLD < r.urgency then
        match notifyRes with
        | Except.error e => Except.error e
        | Except.ok sent => Except.ok (if sent then [msg.ticket_id] else [])
      else Except.ok []
    match notifyStep with
    | Except.error e => Except.error e
    | Except.ok sent =>
      let req : SkillRouting.TicketRequest :=
        { ticket_id := msg.ticket_id, category := r.category, urgency := r.urgency,
          description := msg.description,
          required_skills := [r.category.toLower] }
      let r2 := SkillRouting.routeTicket reg req now
      Except.ok (r2.1, sent, r2.2)

/-- One iteration of the worker main loop: consume with timeout (loop on
None), process, complete on success.  The catch-all handler prints the error
and sleeps: it performs no broker, registry or notifier action. -/
def workerLoopBody (classifyRes : Except String ClassifyResult)
    (notifyRes : Except String Bool) (w : World) (now : ℚ) : World :=
  match consumeTicket w.broker with
  | (none, b1) => { w with broker := b1 }
  | (some msg, b1) =>
    match processTicket classifyRes notifyRes w.registry msg now with
    | Except.ok r =>
      { broker := completeTicketB b1 msg.ticket_id,
        registry := r.1,
        notified := w.notified ++ r.2.1 }
    | Except.error _ => { w with broker := b1 }

/-- A pending ticket message for the worker scenarios. -/
def msgT1 : TicketMessage := ⟨"T1", "s", "d", "c", 0, 0, "now"⟩

/-- A world with one published ticket waiting in the queue. -/
def w9 : World := ⟨⟨[msgT1], ["T1"], [], []⟩, [], []⟩

end Worker

-- ===== THEOREMS =====

/-- Claim C5: the claim states that from Closed a single record_latency(m)
with m above the latency threshold trips the breaker to Open regardless of
the ring contents.  On a fresh breaker (empty ring) record_latency(600) with
threshold 500 leaves the breaker Closed: record_latency only acts through the
ten-sample moving average. -/
theorem C5_counterexample :
    Breaker.defaultConfig.latency_threshold_ms < 600 ∧
    (Breaker.mkCB Breaker.defaultConfig).state = Breaker.CState.closed ∧
    (Breaker.recordLatency (Breaker.mkCB Breaker.defaultConfig) 600 0).state
      = Breaker.CState.closed := by
  refine ⟨by norm_num [Breaker.defaultConfig], rfl, ?_⟩
  norm_num [Breaker.recordLatency, Breaker.newRing, Breaker.mkCB,
    Breaker.defaultConfig, Breaker.maxLatencyHistory]

/-- _trigger_open always leaves the stored state Open (it writes Open unless
the state already is Open). -/
theorem triggerOpen_state (cb : Breaker.CB) :
    (Breaker.triggerOpen cb).state = Breaker.CState.opened := by
  unfold Breaker.triggerOpen
  split_ifs with h
  · rfl
  · simpa using h

/-- record_failure with a truthy latency above the threshold always leaves
the breaker Open. -/
theorem recordFailure_opened_of_latency (cb : Breaker.CB) (m now : ℚ) (hm : m ≠ 0)
    (hgt : cb.config.latency_threshold_ms < m) :
    (Breaker.recordFailure cb (some m) now).state = Breaker.CState.opened := by
  simp only [Breaker.recordFailure]
  split_ifs with h1 h2
  · exact triggerOpen_state _
  · exact triggerOpen_state _
  · exact absurd ⟨hm, hgt⟩ h1
  · exact absurd ⟨hm, hgt⟩ h1

/-- Claim C5 (amended): from Closed, record_latency(m) transitions the
breaker to Open exactly through the moving average: if after appending m the
ring holds fewer than ten samples the call only appends (the state stays
Closed); if it holds at least ten samples and their mean strictly exceeds the
(non-negative) latency threshold, the breaker transitions to Open. -/
theorem C5_amended (cb : Breaker.CB) (m now : ℚ)
    (hc : cb.state = Breaker.CState.closed)
    (hl : 0 ≤ cb.config.latency_threshold_ms) :
    ((Breaker.newRing cb m).length < 10 →
      Breaker.recordLatency cb m now = { cb with latency_history := Breaker.newRing cb m }) ∧
    (10 ≤ (Breaker.newRing cb m).length →
      cb.config.latency_threshold_ms <
        (Breaker.newRing cb m).sum / (Breaker.newRing cb m).length →
      (Breaker.recordLatency cb m now).state = Breaker.CState.opened) := by
  constructor
  · intro hlen
    unfold Breaker.recordLatency
    rw [if_neg]
    intro h
    exact absurd h.1 (by omega)
  · intro hlen havg
    unfold Breaker.recordLatency
    rw [if_pos ⟨hlen, havg⟩]
    exact recordFailure_opened_of_latency _ _ _
      (fun h0 => absurd (h0 ▸ havg) (not_lt.mpr hl)) havg

/-- Witness for C5_amended: a Closed breaker with nine slow samples in the
ring trips to Open on a single record_latency(600). -/
theorem C5_amended_witness :
    (Breaker.recordLatency Breaker.cbNine 600 0).state = Breaker.CState.opened :=
  (C5_amended Breaker.cbNine 600 0 rfl
    (by norm_num [Breaker.cbNine, Breaker.defaultConfig])).2
    (by norm_num [Breaker.newRing, Breaker.cbNine, Breaker.maxLatencyHistory])
    (by norm_num [Breaker.newRing, Breaker.cbNine, Breaker.maxLatencyHistory,
      Breaker.defaultConfig, List.sum_replicate])

/-- Claim C6: the claim states that from HalfOpen any single record_failure
transitions the breaker to Open.  Reach HalfOpen by one latency-tripped
failure (failure counter 1) followed by the lazy state read after the
timeout; a further record_failure with no latency leaves the counter at
2 < 5 and trips nothing: the breaker stays HalfOpen. -/
theorem C6_counterexample :
    (Breaker.readState (Breaker.recordFailure (Breaker.mkCB Breaker.defaultConfig)
        (some 600) 0) 30).1 = Breaker.CState.halfOpen ∧
    (Breaker.recordFailure
        (Breaker.readState (Breaker.recordFailure (Breaker.mkCB Breaker.defaultConfig)
          (some 600) 0) 30).2 none 30).state = Breaker.CState.halfOpen := by
  norm_num +decide [Breaker.readState, Breaker.recordFailure, Breaker.triggerOpen,
    Breaker.shouldAttemptReset, Breaker.mkCB, Breaker.defaultConfig]

/-- _trigger_open preserves the configuration. -/
theorem triggerOpen_config (cb : Breaker.CB) :
    (Breaker.triggerOpen cb).config = cb.config := by
  unfold Breaker.triggerOpen
  split_ifs <;> rfl

/-- _trigger_open preserves the failure counter. -/
theorem triggerOpen_count (cb : Breaker.CB) :
    (Breaker.triggerOpen cb).failure_count = cb.failure_count := by
  unfold Breaker.triggerOpen
  split_ifs <;> rfl

/-- record_failure whose incremented counter reaches the failure threshold
always leaves the breaker Open. -/
theorem recordFailure_opened_of_count (cb : Breaker.CB) (lat : Option ℚ) (now : ℚ)
    (hcnt : cb.config.failure_threshold ≤ cb.failure_count + 1) :
    (Breaker.recordFailure cb lat now).state = Breaker.CState.opened := by
  cases lat with
  | none =>
    simp only [Breaker.recordFailure]
    rw [if_pos hcnt]
    exact triggerOpen_state _
  | some m =>
    simp only [Breaker.recordFailure]
    by_cases h1 : m ≠ 0 ∧ cb.config.latency_threshold_ms < m
    · rw [if_pos h1]
      simp only [triggerOpen_config, triggerOpen_count]
      rw [if_pos hcnt]
      exact triggerOpen_state _
    · rw [if_neg h1, if_pos hcnt]
      exact triggerOpen_state _

/-- record_failure that trips neither the latency check nor the counter
check leaves a HalfOpen breaker HalfOpen. -/
theorem recordFailure_halfOpen (cb : Breaker.CB) (lat : Option ℚ) (now : ℚ)
    (hh : cb.state = Breaker.CState.halfOpen)
    (hlat : ∀ m, lat = some m → m ≠ 0 → m ≤ cb.config.latency_threshold_ms)
    (hcnt : cb.failure_count + 1 < cb.config.failure_threshold) :
    (Breaker.recordFailure cb lat now).state = Breaker.CState.halfOpen := by
  cases lat with
  | none =>
    simp only [Breaker.recordFailure]
    rw [if_neg (not_le.mpr hcnt)]
    exact hh
  | some m =>
    simp only [Breaker.recordFailure]
    have hm : ¬ (m ≠ 0 ∧ cb.config.latency_threshold_ms < m) := by
      rintro ⟨hm0, hgt⟩
      exact absurd hgt (not_lt.mpr (hlat m rfl hm0))
    rw [if_neg hm, if_neg (not_le.mpr hcnt)]
    exact hh

/-- Claim C6 (amended): from HalfOpen, record_failure transitions the breaker
to Open exactly when a truthy latency above the threshold is supplied or the
incremented consecutive-failure counter reaches the failure threshold;
otherwise the breaker remains HalfOpen. -/
theorem C6_amended (cb : Breaker.CB) (lat : Option ℚ) (now : ℚ)
    (hh : cb.state = Breaker.CState.halfOpen) :
    (((∃ m, lat = some m ∧ m ≠ 0 ∧ cb.config.latency_threshold_ms < m) ∨
        cb.config.failure_threshold ≤ cb.failure_count + 1) →
      (Breaker.recordFailure cb lat now).state = Breaker.CState.opened) ∧
    (¬ ((∃ m, lat = some m ∧ m ≠ 0 ∧ cb.config.latency_threshold_ms < m) ∨
        cb.config.failure_threshold ≤ cb.failure_count + 1) →
      (Breaker.recordFailure cb lat now).state = Breaker.CState.halfOpen) := by
  constructor
  · rintro (⟨m, rfl, hm, hgt⟩ | hcnt)
    · exact recordFailure_opened_of_latency cb m now hm hgt
    · exact recordFailure_opened_of_count cb lat now hcnt
  · intro hno
    push_neg at hno
    exact recordFailure_halfOpen cb lat now hh hno.1 hno.2

/-- Witness for C6_amended: the HalfOpen breaker with failure counter 1 sees
record_failure() with no latency and stays HalfOpen. -/
theorem C6_amended_witness :
    (Breaker.recordFailure Breaker.cbHalf none 30).state = Breaker.CState.halfOpen :=
  (C6_amended Breaker.cbHalf none 30 rfl).2
    (by
      rintro (⟨m, hm, _, _⟩ | hcnt)
      · exact Option.noConfusion hm
      · revert hcnt
        norm_num [Breaker.cbHalf, Breaker.defaultConfig])


namespace SkillRouting

theorem pyMaxByAux_mem (f : α → ℚ) (b : α) (l : List α) :
    pyMaxByAux f b l ∈ b :: l := by
  induction l generalizing b with
  | nil => simp [pyMaxByAux]
  | cons x xs ih =>
    rw [pyMaxByAux]
    by_cases hc : f b < f x
    · rw [if_pos hc]
      rcases List.mem_cons.mp (ih x) with h | h <;> simp [h]
    · rw [if_neg hc]
      rcases List.mem_cons.mp (ih b) with h | h <;> simp [h]

theorem pyMaxByAux_ge (f : α → ℚ) (b : α) (l : List α) :
    ∀ y ∈ b :: l, f y ≤ f (pyMaxByAux f b l) := by
  induction l generalizing b with
  | nil => simp [pyMaxByAux]
  | cons x xs ih =>
    intro y hy
    rw [pyMaxByAux]
    have hb : f b ≤ f (pyMaxByAux f (if f b < f x then x else b) xs) := by
      refine le_trans ?_ (ih _ _ (List.mem_cons_self _ _))
      split_ifs with h
      · exact le_of_lt h
      · exact le_refl _
    have hx : f x ≤ f (pyMaxByAux f (if f b < f x then x else b) xs) := by
      refine le_trans ?_ (ih _ _ (List.mem_cons_self _ _))
      split_ifs with h
      · exact le_refl _
      · exact not_lt.mp h
    rcases List.mem_cons.mp hy with rfl | hy
    · exact hb
    rcases List.mem_cons.mp hy with rfl | hy
    · exact hx
    · exact ih _ _ (List.mem_cons_of_mem _ hy)

theorem pyMinByAux_mem (f : α → ℚ) (b : α) (l : List α) :
    pyMinByAux f b l ∈ b :: l := by
  induction l generalizing b with
  | nil => simp [pyMinByAux]
  | cons x xs ih =>
    rw [pyMinByAux]
    by_cases hc : f x < f b
    · rw [if_pos hc]
      rcases List.mem_cons.mp (ih x) with h | h <;> simp [h]
    · rw [if_neg hc]
      rcases List.mem_cons.mp (ih b) with h | h <;> simp [h]

theorem pyMinByAux_le (f : α → ℚ) (b : α) (l : List α) :
    ∀ y ∈ b :: l, f (pyMinByAux f b l) ≤ f y := by
  induction l generalizing b with
  | nil => simp [pyMinByAux]
  | cons x xs ih =>
    intro y hy
    rw [pyMinByAux]
    have hb : f (pyMinByAux f (if f x < f b then x else b) xs) ≤ f b := by
      refine le_trans (ih _ _ (List.mem_cons_self _ _)) ?_
      split_ifs with h
      · exact le_of_lt h
      · exact le_refl _
    have hx : f (pyMinByAux f (if f x < f b then x else b) xs) ≤ f x := by
      refine le_trans (ih _ _ (List.mem_cons_self _ _)) ?_
      split_ifs with h
      · exact le_refl _
      · exact not_lt.mp h
    rcases List.mem_cons.mp hy with rfl | hy
    · exact hb
    rcases List.mem_cons.mp hy with rfl | hy
    · exact hx
    · exact ih _ _ (List.mem_cons_of_mem _ hy)

end SkillRouting

namespace SkillRouting

theorem pyMaxBy_mem {f : α → ℚ} {l : List α} {p : α} (h : pyMaxBy f l = some p) :
    p ∈ l := by
  cases l with
  | nil => simp [pyMaxBy] at h
  | cons x xs =>
    rw [pyMaxBy] at h
    obtain rfl : pyMaxByAux f x xs = p := by simpa using h
    exact pyMaxByAux_mem f x xs

theorem pyMaxBy_ge {f : α → ℚ} {l : List α} {p : α} (h : pyMaxBy f l = some p) :
    ∀ q ∈ l, f q ≤ f p := by
  cases l with
  | nil => simp [pyMaxBy] at h
  | cons x xs =>
    rw [pyMaxBy] at h
    obtain rfl : pyMaxByAux f x xs = p := by simpa using h
    exact pyMaxByAux_ge f x xs

theorem pyMinBy_mem {f : α → ℚ} {l : List α} {p : α} (h : pyMinBy f l = some p) :
    p ∈ l := by
  cases l with
  | nil => simp [pyMinBy] at h
  | cons x xs =>
    rw [pyMinBy] at h
    obtain rfl : pyMinByAux f x xs = p := by simpa using h
    exact pyMinByAux_mem f x xs

theorem pyMinBy_le {f : α → ℚ} {l : List α} {p : α} (h : pyMinBy f l = some p) :
    ∀ q ∈ l, f p ≤ f q := by
  cases l with
  | nil => simp [pyMinBy] at h
  | cons x xs =>
    rw [pyMinBy] at h
    obtain rfl : pyMinByAux f x xs = p := by simpa using h
    exact pyMinByAux_le f x xs

theorem dictContains_iff {l : List AssignedTicket} {k : String} :
    dictContains l k = true ↔ ∃ t ∈ l, t.ticket_id = k := by
  simp [dictContains, List.any_eq_true, beq_iff_eq]

theorem dictGet_of_mem_nodup {l : List AssignedTicket} {t : AssignedTicket}
    (hnd : (l.map (fun t => t.ticket_id)).Nodup) (ht : t ∈ l) :
    dictGet l t.ticket_id = some t := by
  induction l with
  | nil => simp at ht
  | cons x xs ih =>
    rw [List.map_cons, List.nodup_cons] at hnd
    rcases List.mem_cons.mp ht with rfl | ht2
    · simp [dictGet, List.find?]
    · have hne : x.ticket_id ≠ t.ticket_id := by
        intro he
        exact hnd.1 (he ▸ List.mem_map_of_mem (fun t => t.ticket_id) ht2)
      rw [dictGet, List.find?]
      rw [show (x.ticket_id == t.ticket_id) = false from beq_eq_false_iff_ne.mpr hne]
      exact ih hnd.2 ht2

theorem mem_dictSet_self (l : List AssignedTicket) (t : AssignedTicket) :
    t ∈ dictSet l t := by
  induction l with
  | nil => simp [dictSet]
  | cons x xs ih =>
    rw [dictSet]
    split_ifs <;> simp [ih]

theorem dictSet_map_id {l : List AssignedTicket} {t : AssignedTicket}
    (h : t.ticket_id ∈ l.map (fun t => t.ticket_id)) :
    (dictSet l t).map (fun t => t.ticket_id) = l.map (fun t => t.ticket_id) := by
  induction l with
  | nil => simp at h
  | cons x xs ih =>
    rw [dictSet]
    by_cases he : x.ticket_id = t.ticket_id
    · rw [if_pos (beq_iff_eq.mpr he)]
      simp [he]
    · rw [if_neg (by simpa using he)]
      rw [List.map_cons] at h ⊢
      rcases List.mem_cons.mp h with h1 | h2
      · exact absurd h1.symm he
      · rw [List.map_cons, ih h2]

theorem mem_dictSet {l : List AssignedTicket} {t y : AssignedTicket}
    (h : y ∈ dictSet l t) : y = t ∨ y ∈ l := by
  induction l with
  | nil => simpa [dictSet] using h
  | cons x xs ih =>
    rw [dictSet] at h
    split_ifs at h
    · rcases List.mem_cons.mp h with rfl | h2
      · exact Or.inl rfl
      · exact Or.inr (List.mem_cons_of_mem _ h2)
    · rcases List.mem_cons.mp h with rfl | h2
      · exact Or.inr (List.mem_cons_self _ _)
      · rcases ih h2 with h3 | h3
        · exact Or.inl h3
        · exact Or.inr (List.mem_cons_of_mem _ h3)

theorem mem_dictSet_of_ne {l : List AssignedTicket} {t x : AssignedTicket}
    (hx : x ∈ l) (hne : x.ticket_id ≠ t.ticket_id) : x ∈ dictSet l t := by
  induction l with
  | nil => simp at hx
  | cons z zs ih =>
    rw [dictSet]
    rcases List.mem_cons.mp hx with rfl | h2
    · rw [if_neg (by simpa using hne)]
      exact List.mem_cons_self _ _
    · split_ifs
      · exact List.mem_cons_of_mem _ h2
      · exact List.mem_cons_of_mem _ (ih h2)

/-- The fallback branch of release_ticket: a truthy ticket id that is not in
the table still decrements a positive load and reports success, leaving the
table untouched. -/
theorem releaseTicket_absent (a : Agent) (s : String)
    (h : dictContains a.assigned_tickets s = false) (hl : 0 < a.current_load) :
    releaseTicket a (some s) = ({ a with current_load := a.current_load - 1 }, true) := by
  simp only [releaseTicket]
  rw [if_neg (fun hc => by simp [h] at hc), if_pos hl]

/-- _resume_next_paused: either there is no Paused row and the agent is
untouched, or the first highest-urgency Paused row is rewritten to Active. -/
theorem resumeNextPaused_spec (a : Agent) (now : ℚ) (hwf : wfAgent a) :
    (pausedList a = [] → resumeNextPaused a now = a) ∧
    (∀ p, pyMaxBy (fun t => t.urgency) (pausedList a) = some p →
      resumeNextPaused a now =
        { a with assigned_tickets := dictSet a.assigned_tickets (resumedOf p now) }) := by
  constructor
  · intro h0
    unfold resumeNextPaused
    rw [show a.assigned_tickets.filter (fun t => t.status = TStatus.paused) = pausedList a from rfl]
    rw [h0]
    rfl
  · intro p hp
    have hmem : p ∈ pausedList a := pyMaxBy_mem hp
    have hpa : p ∈ a.assigned_tickets ∧ p.status = TStatus.paused := by
      have := List.mem_filter.mp hmem
      refine ⟨this.1, ?_⟩
      simpa using this.2
    unfold resumeNextPaused
    rw [show a.assigned_tickets.filter (fun t => t.status = TStatus.paused) = pausedList a from rfl]
    rw [hp]
    dsimp only
    unfold resumeTicket
    rw [dictGet_of_mem_nodup hwf hpa.1]
    dsimp only
    rw [if_pos hpa.2]
    rfl

end SkillRouting

namespace SkillRouting

theorem pyMaxBy_eq_none {f : α → ℚ} {l : List α} :
    pyMaxBy f l = none ↔ l = [] := by
  cases l <;> simp [pyMaxBy]

end SkillRouting

open SkillRouting in
/-- Claim C10: for every agent with positive current_load, complete_ticket
returns true even when the ticket id is absent from that agent's table; it
then decrements current_load by one and resumes the highest-urgency Paused
ticket (if any), while no table row is removed or marked Completed. -/
theorem C10_theorem (agents : List Agent) (aid tid : String) (now : ℚ)
    (i : ℕ) (a : Agent)
    (hFind : (agents.enum).find? (fun p => p.2.agent_id == aid) = some (i, a))
    (hLoad : 0 < a.current_load)
    (hAbsent : dictContains a.assigned_tickets tid = false)
    (hwf : wfAgent a) :
    (completeTicket agents aid tid now).2 = true ∧
    ∃ a2, (completeTicket agents aid tid now).1 = agents.set i a2 ∧
      a2.current_load = a.current_load - 1 ∧
      a2.assigned_tickets.map (fun t => t.ticket_id)
        = a.assigned_tickets.map (fun t => t.ticket_id) ∧
      (∀ e ∈ a2.assigned_tickets, e.status = TStatus.completed → e ∈ a.assigned_tickets) ∧
      (pausedList a = [] → a2.assigned_tickets = a.assigned_tickets) ∧
      (∀ p, pyMaxBy (fun t => t.urgency) (pausedList a) = some p →
        a2.assigned_tickets = dictSet a.assigned_tickets (resumedOf p now) ∧
        p ∈ pausedList a ∧
        ∀ q ∈ pausedList a, q.urgency ≤ p.urgency) := by
  have hrel := releaseTicket_absent a tid hAbsent hLoad
  have hred : completeTicket agents aid tid now =
      (agents.set i (resumeNextPaused { a with current_load := a.current_load - 1 } now),
       true) := by
    simp only [completeTicket, hFind, hrel, if_true]
  rw [hred]
  refine ⟨rfl, resumeNextPaused { a with current_load := a.current_load - 1 } now, rfl, ?_⟩
  have hwf1 : wfAgent { a with current_load := a.current_load - 1 } := hwf
  have hspec := resumeNextPaused_spec { a with current_load := a.current_load - 1 } now hwf1
  have hplist : pausedList { a with current_load := a.current_load - 1 } = pausedList a := rfl
  cases hmax : pyMaxBy (fun t => t.urgency) (pausedList a) with
  | none =>
    have h0 : pausedList a = [] := pyMaxBy_eq_none.mp hmax
    have ha2 : resumeNextPaused { a with current_load := a.current_load - 1 } now
        = { a with current_load := a.current_load - 1 } :=
      hspec.1 (hplist.trans h0)
    rw [ha2]
    exact ⟨rfl, rfl, fun e he _ => he, fun _ => rfl, fun p hp => Option.noConfusion hp⟩
  | some p =>
    have hmax1 : pyMaxBy (fun t => t.urgency)
        (pausedList { a with current_load := a.current_load - 1 }) = some p := by
      rw [hplist]
      exact hmax
    have ha2 := hspec.2 p hmax1
    rw [ha2]
    have hpmem : p ∈ pausedList a := pyMaxBy_mem hmax
    have hpassigned : p ∈ a.assigned_tickets := (List.mem_filter.mp hpmem).1
    have hid : (resumedOf p now).ticket_id ∈ a.assigned_tickets.map (fun t => t.ticket_id) :=
      List.mem_map_of_mem (fun t => t.ticket_id) hpassigned
    refine ⟨rfl, dictSet_map_id hid, ?_, ?_, ?_⟩
    · intro e he hc
      rcases mem_dictSet he with rfl | h2
      · exact absurd hc (by simp [resumedOf])
      · exact h2
    · intro h0
      rw [h0] at hmax
      simp [pyMaxBy] at hmax
    · intro p2 hp2
      obtain rfl : p = p2 := by
        injection hp2
      exact ⟨rfl, hpmem, pyMaxBy_ge hmax⟩

/-- Witness for C10_theorem: a concrete agent with load 1 and a single Paused
row, completed with an id absent from the table: the call reports success and
resumes the Paused row. -/
theorem C10_witness :
    (SkillRouting.completeTicket [SkillRouting.agW] "W" "MISSING" 5).2 = true :=
  (C10_theorem [SkillRouting.agW] "W" "MISSING" 5 0 SkillRouting.agW
    rfl (by decide) (by decide) (by decide)).1

namespace SkillRouting

theorem releaseTicket_status (a : Agent) (tid : Option String) :
    (releaseTicket a tid).1.status = a.status := by
  unfold releaseTicket
  cases tid <;> dsimp only <;> split_ifs <;> rfl

theorem releaseTicket_capacity (a : Agent) (tid : Option String) :
    (releaseTicket a tid).1.capacity = a.capacity := by
  unfold releaseTicket
  cases tid <;> dsimp only <;> split_ifs <;> rfl

theorem releaseTicket_agent_id (a : Agent) (tid : Option String) :
    (releaseTicket a tid).1.agent_id = a.agent_id := by
  unfold releaseTicket
  cases tid <;> dsimp only <;> split_ifs <;> rfl

theorem releaseTicket_load_le (a : Agent) (tid : Option String) :
    (releaseTicket a tid).1.current_load ≤ a.current_load := by
  unfold releaseTicket
  cases tid <;> dsimp only <;> split_ifs <;> dsimp only <;> omega

theorem resumeTicket_status (a : Agent) (tid : String) (now : ℚ) :
    (resumeTicket a tid now).1.status = a.status := by
  unfold resumeTicket
  cases dictGet a.assigned_tickets tid
  · rfl
  · dsimp only
    split_ifs <;> rfl

theorem resumeTicket_capacity (a : Agent) (tid : String) (now : ℚ) :
    (resumeTicket a tid now).1.capacity = a.capacity := by
  unfold resumeTicket
  cases dictGet a.assigned_tickets tid
  · rfl
  · dsimp only
    split_ifs <;> rfl

theorem resumeTicket_agent_id (a : Agent) (tid : String) (now : ℚ) :
    (resumeTicket a tid now).1.agent_id = a.agent_id := by
  unfold resumeTicket
  cases dictGet a.assigned_tickets tid
  · rfl
  · dsimp only
    split_ifs <;> rfl

theorem resumeTicket_load (a : Agent) (tid : String) (now : ℚ) :
    (resumeTicket a tid now).1.current_load = a.current_load := by
  unfold resumeTicket
  cases dictGet a.assigned_tickets tid
  · rfl
  · dsimp only
    split_ifs <;> rfl

theorem resumeNextPaused_status (a : Agent) (now : ℚ) :
    (resumeNextPaused a now).status = a.status := by
  unfold resumeNextPaused
  cases pyMaxBy (fun t => t.urgency)
      (a.assigned_tickets.filter (fun t => t.status = TStatus.paused))
  · rfl
  · exact resumeTicket_status _ _ _

theorem resumeNextPaused_capacity (a : Agent) (now : ℚ) :
    (resumeNextPaused a now).capacity = a.capacity := by
  unfold resumeNextPaused
  cases pyMaxBy (fun t => t.urgency)
      (a.assigned_tickets.filter (fun t => t.status = TStatus.paused))
  · rfl
  · exact resumeTicket_capacity _ _ _

theorem resumeNextPaused_agent_id (a : Agent) (now : ℚ) :
    (resumeNextPaused a now).agent_id = a.agent_id := by
  unfold resumeNextPaused
  cases pyMaxBy (fun t => t.urgency)
      (a.assigned_tickets.filter (fun t => t.status = TStatus.paused))
  · rfl
  · exact resumeTicket_agent_id _ _ _

theorem resumeNextPaused_load (a : Agent) (now : ℚ) :
    (resumeNextPaused a now).current_load = a.current_load := by
  unfold resumeNextPaused
  cases pyMaxBy (fun t => t.urgency)
      (a.assigned_tickets.filter (fun t => t.status = TStatus.paused))
  · rfl
  · exact resumeTicket_load _ _ _

theorem autoCompleteAgent_status (now : ℚ) (a : Agent) :
    (autoCompleteAgent now a).status = a.status := by
  unfold autoCompleteAgent
  generalize (a.assigned_tickets.filter (fun t => isExpiredB t now)).map
    (fun t => t.ticket_id) = l
  induction l generalizing a with
  | nil => rfl
  | cons x xs ih =>
    rw [List.foldl_cons]
    rw [ih]
    rw [resumeNextPaused_status, releaseTicket_status]

theorem autoCompleteAgent_capacity (now : ℚ) (a : Agent) :
    (autoCompleteAgent now a).capacity = a.capacity := by
  unfold autoCompleteAgent
  generalize (a.assigned_tickets.filter (fun t => isExpiredB t now)).map
    (fun t => t.ticket_id) = l
  induction l generalizing a with
  | nil => rfl
  | cons x xs ih =>
    rw [List.foldl_cons, ih, resumeNextPaused_capacity, releaseTicket_capacity]

theorem autoCompleteAgent_agent_id (now : ℚ) (a : Agent) :
    (autoCompleteAgent now a).agent_id = a.agent_id := by
  unfold autoCompleteAgent
  generalize (a.assigned_tickets.filter (fun t => isExpiredB t now)).map
    (fun t => t.ticket_id) = l
  induction l generalizing a with
  | nil => rfl
  | cons x xs ih =>
    rw [List.foldl_cons, ih, resumeNextPaused_agent_id, releaseTicket_agent_id]

theorem autoCompleteAgent_load_le (now : ℚ) (a : Agent) :
    (autoCompleteAgent now a).current_load ≤ a.current_load := by
  unfold autoCompleteAgent
  generalize (a.assigned_tickets.filter (fun t => isExpiredB t now)).map
    (fun t => t.ticket_id) = l
  induction l generalizing a with
  | nil => exact le_refl _
  | cons x xs ih =>
    rw [List.foldl_cons]
    refine le_trans (ih _) ?_
    rw [resumeNextPaused_load]
    exact releaseTicket_load_le _ _

theorem autoCompleteAgent_canAccept {a : Agent} (now : ℚ) (h : canAccept a) :
    canAccept (autoCompleteAgent now a) := by
  obtain ⟨h1, h2⟩ := h
  refine ⟨?_, ?_⟩
  · rw [autoCompleteAgent_status]
    exact h1
  · rw [autoCompleteAgent_capacity]
    exact lt_of_le_of_lt (autoCompleteAgent_load_le now a) h2

theorem selectBestAux_isSome_acc (t : TicketRequest) (l : List Agent) (i : ℕ)
    (b : ℕ × Agent × ℚ) : (selectBestAux t l i (some b)).isSome = true := by
  induction l generalizing i b with
  | nil => rfl
  | cons x xs ih =>
    simp only [selectBestAux]
    split_ifs <;> exact ih _ _

theorem selectBestAux_isSome_of_mem (t : TicketRequest) {l : List Agent} {a : Agent}
    (ha : a ∈ l) (hacc : canAccept a) (i : ℕ) (acc : Option (ℕ × Agent × ℚ)) :
    (selectBestAux t l i acc).isSome = true := by
  induction l generalizing i acc with
  | nil => simp at ha
  | cons x xs ih =>
    cases acc with
    | some b => exact selectBestAux_isSome_acc t _ _ _
    | none =>
      simp only [selectBestAux]
      rcases List.mem_cons.mp ha with rfl | h2
      · rw [if_pos hacc]
        exact selectBestAux_isSome_acc t xs _ _
      · split_ifs
        · exact selectBestAux_isSome_acc t xs _ _
        · exact ih h2 _ _

end SkillRouting

/-- Claim C4: the claim states that whenever some agent has current_load
strictly below capacity, route returns a non-empty agent_id.  A pool whose
only under-capacity agent is Busy refutes it: can_accept_ticket also
requires the Available status, and with urgency 0.5 below the preemption
threshold the router returns no assignment at all. -/
theorem C4_counterexample :
    SkillRouting.agBusy.current_load < SkillRouting.agBusy.capacity ∧
    (SkillRouting.routeTicketWithPreemption [SkillRouting.agBusy]
        SkillRouting.reqMild 0).2.1 = none := by
  constructor
  · decide
  · norm_num +decide [SkillRouting.routeTicketWithPreemption, SkillRouting.autoComplete,
      SkillRouting.autoCompleteAgent, SkillRouting.isExpiredB, SkillRouting.remainingEta,
      SkillRouting.pymax, SkillRouting.selectBest, SkillRouting.selectBestAux,
      SkillRouting.canAccept, SkillRouting.selectVictim, SkillRouting.selectVictimAux,
      SkillRouting.getLowestUrgencyActive, SkillRouting.pyMinBy, SkillRouting.pyMinByAux,
      SkillRouting.preemptForTicket, SkillRouting.agBusy, SkillRouting.reqMild,
      SkillRouting.PREEMPTION_URGENCY_THRESHOLD, List.filter_cons, List.filter_nil]

open SkillRouting in
/-- Claim C4 (amended): for every ticket request and every pool in which at
least one agent can accept (Available AND current_load < capacity),
route_ticket_with_preemption returns a non-empty agent_id. -/
theorem C4_amended (agents : List Agent) (t : TicketRequest) (now : ℚ)
    (h : ∃ a ∈ agents, canAccept a) :
    (routeTicketWithPreemption agents t now).2.1.isSome = true := by
  obtain ⟨a, ha, hacc⟩ := h
  have hmem : autoCompleteAgent now a ∈ autoComplete agents now :=
    List.mem_map_of_mem _ ha
  have hacc2 : canAccept (autoCompleteAgent now a) := autoCompleteAgent_canAccept now hacc
  have hsel : (selectBest (autoComplete agents now) t).isSome = true :=
    selectBestAux_isSome_of_mem t hmem hacc2 0 none
  simp only [routeTicketWithPreemption]
  cases hs : selectBest (autoComplete agents now) t with
  | none =>
    rw [hs] at hsel
    simp at hsel
  | some v => rfl

/-- Witness for C4_amended: a pool with one idle Available agent. -/
theorem C4_amended_witness :
    (SkillRouting.routeTicketWithPreemption [SkillRouting.agD]
      SkillRouting.reqMild 0).2.1.isSome = true :=
  C4_amended [SkillRouting.agD] SkillRouting.reqMild 0
    ⟨SkillRouting.agD, List.mem_singleton.mpr rfl, by decide⟩

namespace SkillRouting

theorem pyMinBy_eq_none {f : α → ℚ} {l : List α} :
    pyMinBy f l = none ↔ l = [] := by
  cases l <;> simp [pyMinBy]

theorem glua_mem {a : Agent} {tk : AssignedTicket}
    (h : getLowestUrgencyActive a = some tk) :
    tk ∈ a.assigned_tickets ∧ tk.status = TStatus.active := by
  have hm := pyMinBy_mem h
  have := List.mem_filter.mp hm
  exact ⟨this.1, by simpa using this.2⟩

theorem glua_le {a : Agent} {tk : AssignedTicket}
    (h : getLowestUrgencyActive a = some tk) :
    ∀ e ∈ a.assigned_tickets, e.status = TStatus.active → tk.urgency ≤ e.urgency := by
  intro e he hst
  exact pyMinBy_le h e (List.mem_filter.mpr ⟨he, by simpa using hst⟩)

theorem glua_none {a : Agent} (h : getLowestUrgencyActive a = none) :
    ∀ e ∈ a.assigned_tickets, e.status ≠ TStatus.active := by
  intro e he hst
  have h0 : a.assigned_tickets.filter (fun t => t.status = TStatus.active) = [] :=
    pyMinBy_eq_none.mp h
  have : e ∈ a.assigned_tickets.filter (fun t => t.status = TStatus.active) :=
    List.mem_filter.mpr ⟨he, by simpa using hst⟩
  rw [h0] at this
  simp at this

end SkillRouting

namespace SkillRouting

theorem victimStep_lt (u : ℚ) (i : ℕ) (a : Agent) (best : Option (ℕ × AssignedTicket))
    (hb : ∀ jb vb, best = some (jb, vb) → vb.urgency < u) :
    ∀ jb vb, victimStep u i a best = some (jb, vb) → vb.urgency < u := by
  intro jb vb h
  unfold victimStep at h
  split_ifs at h with h1
  · exact hb jb vb h
  · cases hg : getLowestUrgencyActive a with
    | none =>
      rw [hg] at h
      exact hb jb vb h
    | some tk =>
      rw [hg] at h
      cases best with
      | none =>
        dsimp only at h
        split_ifs at h with h2
        obtain ⟨rfl, rfl⟩ : jb = i ∧ vb = tk := by
          have := Option.some.inj h
          exact ⟨congrArg Prod.fst this.symm, congrArg Prod.snd this.symm⟩
        exact h2
      | some p =>
        obtain ⟨j0, cur⟩ := p
        dsimp only at h
        split_ifs at h with h2
        · obtain ⟨rfl, rfl⟩ : jb = i ∧ vb = tk := by
            have := Option.some.inj h
            exact ⟨congrArg Prod.fst this.symm, congrArg Prod.snd this.symm⟩
          exact h2.2
        · exact hb jb vb h

theorem victimStep_prov (u : ℚ) (i : ℕ) (a : Agent) (best : Option (ℕ × AssignedTicket))
    {jb : ℕ} {vb : AssignedTicket} (h : victimStep u i a best = some (jb, vb)) :
    best = some (jb, vb) ∨
    (jb = i ∧ a.status ≠ AStatus.offline ∧ getLowestUrgencyActive a = some vb ∧
      vb.urgency < u) := by
  unfold victimStep at h
  split_ifs at h with h1
  · exact Or.inl h
  · cases hg : getLowestUrgencyActive a with
    | none =>
      rw [hg] at h
      exact Or.inl h
    | some tk =>
      rw [hg] at h
      cases best with
      | none =>
        dsimp only at h
        split_ifs at h with h2
        obtain ⟨rfl, rfl⟩ : jb = i ∧ vb = tk := by
          have := Option.some.inj h
          exact ⟨congrArg Prod.fst this.symm, congrArg Prod.snd this.symm⟩
        exact Or.inr ⟨rfl, h1, rfl, h2⟩
      | some p =>
        obtain ⟨j0, cur⟩ := p
        dsimp only at h
        split_ifs at h with h2
        · obtain ⟨rfl, rfl⟩ : jb = i ∧ vb = tk := by
            have := Option.some.inj h
            exact ⟨congrArg Prod.fst this.symm, congrArg Prod.snd this.symm⟩
          exact Or.inr ⟨rfl, h1, rfl, h2.2⟩
        · exact Or.inl h

theorem victimStep_cases (u : ℚ) (i : ℕ) (a : Agent)
    (best : Option (ℕ × AssignedTicket)) :
    (victimStep u i a best = best ∧
      (a.status ≠ AStatus.offline → ∀ tk, getLowestUrgencyActive a = some tk →
        (u ≤ tk.urgency ∨ ∃ jb vb, best = some (jb, vb) ∧ vb.urgency ≤ tk.urgency))) ∨
    ∃ tk, victimStep u i a best = some (i, tk) ∧ a.status ≠ AStatus.offline ∧
      getLowestUrgencyActive a = some tk ∧ tk.urgency < u ∧
      ∀ jb vb, best = some (jb, vb) → tk.urgency < vb.urgency := by
  have hoff : a.status = AStatus.offline ∨ a.status ≠ AStatus.offline := em _
  unfold victimStep
  rcases hoff with h1 | h1
  · rw [if_pos h1]
    exact Or.inl ⟨rfl, fun hoff2 => absurd h1 hoff2⟩
  · rw [if_neg h1]
    cases hg : getLowestUrgencyActive a with
    | none =>
      refine Or.inl ⟨rfl, fun _ tk htk => ?_⟩
      exact Option.noConfusion htk
    | some tk =>
      cases best with
      | none =>
        dsimp only
        split_ifs with h2
        · exact Or.inr ⟨tk, rfl, h1, rfl, h2, fun jb vb he => he.elim⟩
        · refine Or.inl ⟨rfl, fun _ tk2 htk2 => ?_⟩
          obtain rfl : tk = tk2 := Option.some.inj htk2
          exact Or.inl (not_lt.mp h2)
      | some p =>
        obtain ⟨j0, cur⟩ := p
        dsimp only
        split_ifs with h2
        · refine Or.inr ⟨tk, rfl, h1, rfl, h2.2, fun jb vb he => ?_⟩
          obtain ⟨rfl, rfl⟩ : j0 = jb ∧ cur = vb := by
            have := Option.some.inj he
            exact ⟨congrArg Prod.fst this, congrArg Prod.snd this⟩
          exact h2.1
        · refine Or.inl ⟨rfl, fun _ tk2 htk2 => ?_⟩
          obtain rfl : tk = tk2 := Option.some.inj htk2
          rcases not_and_or.mp h2 with h3 | h3
          · exact Or.inr ⟨j0, cur, rfl, not_lt.mp h3⟩
          · exact Or.inl (not_lt.mp h3)

theorem selectVictimAux_lt (u : ℚ) (l : List Agent) :
    ∀ (i0 : ℕ) (best : Option (ℕ × AssignedTicket)),
    (∀ jb vb, best = some (jb, vb) → vb.urgency < u) →
    ∀ j v, selectVictimAux u l i0 best = some (j, v) → v.urgency < u := by
  induction l with
  | nil =>
    intro i0 best hb j v h
    exact hb j v h
  | cons a rest ih =>
    intro i0 best hb j v h
    rw [selectVictimAux] at h
    exact ih (i0 + 1) _ (victimStep_lt u i0 a best hb) j v h

theorem selectVictimAux_prov (u : ℚ) (l : List Agent) :
    ∀ (i0 : ℕ) (best : Option (ℕ × AssignedTicket)) (j : ℕ) (v : AssignedTicket),
    selectVictimAux u l i0 best = some (j, v) →
    best = some (j, v) ∨
    ∃ k a, l[k]? = some a ∧ j = i0 + k ∧ a.status ≠ AStatus.offline ∧
      getLowestUrgencyActive a = some v ∧ v.urgency < u := by
  induction l with
  | nil =>
    intro i0 best j v h
    exact Or.inl h
  | cons a rest ih =>
    intro i0 best j v h
    rw [selectVictimAux] at h
    rcases ih (i0 + 1) _ j v h with h2 | ⟨k, b, hk, hj, hoff, hg, hu⟩
    · rcases victimStep_prov u i0 a best h2 with h3 | ⟨rfl, hoff, hg, hu⟩
      · exact Or.inl h3
      · exact Or.inr ⟨0, a, by simp, rfl, hoff, hg, hu⟩
    · exact Or.inr ⟨k + 1, b, by simpa using hk, by omega, hoff, hg, hu⟩

theorem selectVictimAux_min (u : ℚ) (l : List Agent) :
    ∀ (i0 : ℕ) (best : Option (ℕ × AssignedTicket)) (j : ℕ) (v : AssignedTicket),
    (∀ jb vb, best = some (jb, vb) → vb.urgency < u) →
    selectVictimAux u l i0 best = some (j, v) →
    (∀ jb vb, best = some (jb, vb) → v.urgency ≤ vb.urgency) ∧
    (∀ b ∈ l, b.status ≠ AStatus.offline →
      ∀ e ∈ b.assigned_tickets, e.status = TStatus.active → v.urgency ≤ e.urgency) := by
  induction l with
  | nil =>
    intro i0 best j v hb h
    rw [selectVictimAux] at h
    constructor
    · intro jb vb he
      rw [h] at he
      obtain ⟨rfl, rfl⟩ : jb = j ∧ vb = v := by
        have := Option.some.inj he
        exact ⟨congrArg Prod.fst this.symm, congrArg Prod.snd this.symm⟩
      exact le_refl _
    · intro b hbm
      simp at hbm
  | cons a rest ih =>
    intro i0 best j v hb h
    rw [selectVictimAux] at h
    have hb2 := victimStep_lt u i0 a best hb
    have hih := ih (i0 + 1) _ j v hb2 h
    have hvu : v.urgency < u := selectVictimAux_lt u rest (i0 + 1) _ hb2 j v h
    have hbestle : ∀ jb vb, best = some (jb, vb) → v.urgency ≤ vb.urgency := by
      intro jb vb he
      rcases victimStep_cases u i0 a best with ⟨heq, _⟩ | ⟨tk, hstep, _, _, _, hgt⟩
      · exact hih.1 jb vb (heq.trans he)
      · exact le_trans (hih.1 i0 tk hstep) (le_of_lt (hgt jb vb he))
    refine ⟨hbestle, ?_⟩
    intro b hbm hoff e he hact
    rcases List.mem_cons.mp hbm with rfl | hmem
    · cases hga : getLowestUrgencyActive b with
      | none => exact absurd hact (glua_none hga e he)
      | some tk =>
        have htke : tk.urgency ≤ e.urgency := glua_le hga e he hact
        rcases victimStep_cases u i0 b best with ⟨heq, hskip⟩ | ⟨tk2, hstep, _, hga2, _, _⟩
        · rcases hskip hoff tk hga with hu2 | ⟨jb, vb, hbe, hle⟩
          · exact le_trans (le_of_lt (lt_of_lt_of_le hvu hu2)) htke
          · exact le_trans (le_trans (hbestle jb vb hbe) hle) htke
        · obtain rfl : tk2 = tk := Option.some.inj (hga2.symm.trans hga)
          exact le_trans (hih.1 i0 tk2 hstep) htke
    · exact hih.2 b hmem hoff e he hact

end SkillRouting

/-- Claim C7: the claim states that among equal-urgency candidates the
preemption victim is the one with the earliest started_at.  Two full agents
each hold one Active ticket of urgency 0.1; the victim chosen for an
urgency-0.9 ticket is TX (started_at 100) on the first-registered agent,
although TY (started_at 50) on the second agent started earlier. -/
theorem C7_counterexample :
    (SkillRouting.routeTicketWithPreemption [SkillRouting.agA, SkillRouting.agB]
        SkillRouting.reqHot 100).2.2 = some "TX" ∧
    SkillRouting.tkX.urgency = SkillRouting.tkY.urgency ∧
    SkillRouting.tkY.started_at < SkillRouting.tkX.started_at ∧
    SkillRouting.tkY ∈ SkillRouting.agB.assigned_tickets ∧
    SkillRouting.tkY.status = SkillRouting.TStatus.active ∧
    SkillRouting.agB.status ≠ SkillRouting.AStatus.offline ∧
    SkillRouting.tkX.ticket_id ≠ SkillRouting.tkY.ticket_id := by
  refine ⟨?_, rfl, by norm_num [SkillRouting.tkX, SkillRouting.tkY],
    by simp [SkillRouting.agB], rfl, by decide, by decide⟩
  norm_num +decide [SkillRouting.routeTicketWithPreemption, SkillRouting.autoComplete,
    SkillRouting.autoCompleteAgent, SkillRouting.isExpiredB, SkillRouting.remainingEta,
    SkillRouting.pymax, SkillRouting.selectBest, SkillRouting.selectBestAux,
    SkillRouting.canAccept, SkillRouting.selectVictim, SkillRouting.selectVictimAux,
    SkillRouting.victimStep, SkillRouting.getLowestUrgencyActive, SkillRouting.pyMinBy,
    SkillRouting.pyMinByAux, SkillRouting.preemptForTicket, SkillRouting.pauseTicket,
    SkillRouting.acceptTicket, SkillRouting.dictGet, SkillRouting.dictSet,
    SkillRouting.dictContains, SkillRouting.mkAssigned, SkillRouting.tkX, SkillRouting.tkY,
    SkillRouting.agA, SkillRouting.agB, SkillRouting.reqHot,
    SkillRouting.PREEMPTION_URGENCY_THRESHOLD, SkillRouting.ETA_BASE_SECONDS,
    List.filter_cons, List.filter_nil]

open SkillRouting in
/-- Claim C7 (amended): whenever preemption selects a victim, the victim is
an Active assigned ticket of a non-Offline agent with the globally minimum
urgency across all non-Offline agents' Active assignments, strictly below
the incoming urgency.  The tie among candidates sharing the minimum urgency
is NOT broken by earliest started_at: the scan keeps the first candidate in
agent-iteration order (see the counterexample). -/
theorem C7_amended (agents : List Agent) (t : TicketRequest) (now : ℚ) :
    (∀ aid pid, (routeTicketWithPreemption agents t now).2 = (some aid, some pid) →
      ∃ i v, selectVictim (autoComplete agents now) t.urgency = some (i, v) ∧
        pid = v.ticket_id) ∧
    (∀ (l : List Agent) (u : ℚ) (i : ℕ) (v : AssignedTicket),
      selectVictim l u = some (i, v) →
      (∃ a, l[i]? = some a ∧ a.status ≠ AStatus.offline ∧
        v ∈ a.assigned_tickets ∧ v.status = TStatus.active ∧
        getLowestUrgencyActive a = some v) ∧
      v.urgency < u ∧
      (∀ b ∈ l, b.status ≠ AStatus.offline →
        ∀ e ∈ b.assigned_tickets, e.status = TStatus.active → v.urgency ≤ e.urgency)) := by
  constructor
  · intro aid pid h
    simp only [routeTicketWithPreemption] at h
    cases hsb : selectBest (autoComplete agents now) t with
    | some p =>
      rw [hsb] at h
      simp at h
    | none =>
      rw [hsb] at h
      dsimp only at h
      split_ifs at h with hthr
      · simp only [preemptForTicket] at h
        cases hsv : selectVictim (autoComplete agents now) t.urgency with
        | none =>
          rw [hsv] at h
          simp at h
        | some p =>
          obtain ⟨i, v⟩ := p
          rw [hsv] at h
          dsimp only at h
          cases hga : (autoComplete agents now)[i]? with
          | none =>
            rw [hga] at h
            simp at h
          | some a =>
            rw [hga] at h
            dsimp only at h
            obtain ⟨h1, h2⟩ := Prod.mk.injEq .. ▸ h
            exact ⟨i, v, rfl, (Option.some.inj h2).symm⟩
      · simp at h
  · intro l u i v h
    unfold selectVictim at h
    have hb0 : ∀ jb vb, (none : Option (ℕ × AssignedTicket)) = some (jb, vb) →
        vb.urgency < u := fun jb vb he => Option.noConfusion he
    have hlt := selectVictimAux_lt u l 0 none hb0 i v h
    have hmin := (selectVictimAux_min u l 0 none i v hb0 h).2
    rcases selectVictimAux_prov u l 0 none i v h with h2 | ⟨k, a, hk, hki, hoff, hg, _⟩
    · exact Option.noConfusion h2
    · obtain rfl : i = k := by omega
      obtain ⟨hmem, hact⟩ := glua_mem hg
      exact ⟨⟨a, hk, hoff, hmem, hact, hg⟩, hlt, hmin⟩

/-- Witness for C7_amended: the concrete two-agent pool of the
counterexample, where the selected victim TX indeed carries the globally
minimal urgency. -/
theorem C7_amended_witness :
    SkillRouting.tkX.urgency < SkillRouting.reqHot.urgency ∧
    (∀ b ∈ [SkillRouting.agA, SkillRouting.agB],
      b.status ≠ SkillRouting.AStatus.offline →
      ∀ e ∈ b.assigned_tickets, e.status = SkillRouting.TStatus.active →
        SkillRouting.tkX.urgency ≤ e.urgency) := by
  have h := (C7_amended [SkillRouting.agA, SkillRouting.agB] SkillRouting.reqHot 100).2
    [SkillRouting.agA, SkillRouting.agB] SkillRouting.reqHot.urgency 0 SkillRouting.tkX
    (by norm_num +decide [SkillRouting.selectVictim, SkillRouting.selectVictimAux,
      SkillRouting.victimStep, SkillRouting.getLowestUrgencyActive, SkillRouting.pyMinBy,
      SkillRouting.pyMinByAux, SkillRouting.tkX, SkillRouting.tkY, SkillRouting.agA,
      SkillRouting.agB, SkillRouting.reqHot, List.filter_cons, List.filter_nil])
  exact ⟨h.2.1, h.2.2⟩

namespace SkillRouting

theorem nodup_id_unique {l : List AssignedTicket}
    (hnd : (l.map (fun t => t.ticket_id)).Nodup) {e e' : AssignedTicket}
    (he : e ∈ l) (he' : e' ∈ l) (hid : e.ticket_id = e'.ticket_id) : e = e' := by
  induction l with
  | nil => simp at he
  | cons x xs ih =>
    rw [List.map_cons, List.nodup_cons] at hnd
    rcases List.mem_cons.mp he with rfl | he2 <;> rcases List.mem_cons.mp he' with rfl | he3
    · rfl
    · exact absurd (hid ▸ List.mem_map_of_mem (fun t => t.ticket_id) he3) hnd.1
    · exact absurd (hid ▸ List.mem_map_of_mem (fun t => t.ticket_id) he2) hnd.1
    · exact ih hnd.2 he2 he3

theorem dictDel_subset {l : List AssignedTicket} {k : String} {x : AssignedTicket}
    (h : x ∈ dictDel l k) : x ∈ l := by
  induction l with
  | nil => simpa [dictDel] using h
  | cons z zs ih =>
    rw [dictDel] at h
    split_ifs at h
    · exact List.mem_cons_of_mem _ h
    · rcases List.mem_cons.mp h with rfl | h2
      · exact List.mem_cons_self _ _
      · exact List.mem_cons_of_mem _ (ih h2)

theorem dictDel_map_sublist (l : List AssignedTicket) (k : String) :
    ((dictDel l k).map (fun t => t.ticket_id)).Sublist (l.map (fun t => t.ticket_id)) := by
  induction l with
  | nil => simp [dictDel]
  | cons z zs ih =>
    rw [dictDel]
    split_ifs
    · rw [List.map_cons]
      exact List.sublist_cons_self _ _
    · rw [List.map_cons, List.map_cons]
      exact List.Sublist.cons₂ _ ih

theorem releaseTicket_subset {a : Agent} {tid : Option String} {e : AssignedTicket}
    (h : e ∈ (releaseTicket a tid).1.assigned_tickets) : e ∈ a.assigned_tickets := by
  unfold releaseTicket at h
  cases tid with
  | none =>
    dsimp only at h
    split_ifs at h <;> exact h
  | some s =>
    dsimp only at h
    split_ifs at h <;>
      first
        | exact dictDel_subset (show e ∈ dictDel a.assigned_tickets s from h)
        | exact (show e ∈ a.assigned_tickets from h)

theorem releaseTicket_wf {a : Agent} (tid : Option String) (h : wfAgent a) :
    wfAgent (releaseTicket a tid).1 := by
  unfold wfAgent releaseTicket
  cases tid with
  | none =>
    dsimp only
    split_ifs <;> exact h
  | some s =>
    dsimp only
    split_ifs <;>
      first
        | exact (show ((dictDel a.assigned_tickets s).map
            (fun t => t.ticket_id)).Nodup from
            List.Nodup.sublist (dictDel_map_sublist a.assigned_tickets s) h)
        | exact (show ((a.assigned_tickets.map (fun t => t.ticket_id))).Nodup from h)

theorem dictGet_some_mem {l : List AssignedTicket} {k : String} {t : AssignedTicket}
    (h : dictGet l k = some t) : t ∈ l ∧ t.ticket_id = k := by
  unfold dictGet at h
  refine ⟨List.mem_of_find?_eq_some h, ?_⟩
  have := List.find?_some h
  simpa using this

theorem resumeTicket_entries {a : Agent} {tid : String} {now : ℚ} {e : AssignedTicket}
    (h : e ∈ (resumeTicket a tid now).1.assigned_tickets) :
    e ∈ a.assigned_tickets ∨
    ∃ p ∈ a.assigned_tickets, p.status = TStatus.paused ∧ e = resumedOf p now := by
  unfold resumeTicket at h
  cases hg : dictGet a.assigned_tickets tid with
  | none =>
    rw [hg] at h
    exact Or.inl h
  | some t =>
    rw [hg] at h
    dsimp only at h
    split_ifs at h with hs
    · rcases mem_dictSet h with rfl | h2
      · exact Or.inr ⟨t, (dictGet_some_mem hg).1, hs, rfl⟩
      · exact Or.inl h2
    · exact Or.inl h

theorem resumeTicket_wf {a : Agent} (tid : String) (now : ℚ) (h : wfAgent a) :
    wfAgent (resumeTicket a tid now).1 := by
  unfold wfAgent resumeTicket
  cases hg : dictGet a.assigned_tickets tid with
  | none => exact h
  | some t =>
    dsimp only
    split_ifs with hs
    · have hmem := (dictGet_some_mem hg).1
      have hmm : (resumedOf t now).ticket_id ∈
          a.assigned_tickets.map (fun t => t.ticket_id) :=
        List.mem_map_of_mem (fun t => t.ticket_id) hmem
      dsimp only
      rw [show dictSet a.assigned_tickets
          { t with started_at := now, paused_at := none, status := TStatus.active }
          = dictSet a.assigned_tickets (resumedOf t now) from rfl]
      rw [dictSet_map_id hmm]
      exact h
    · exact h

theorem resumeNextPaused_entries {a : Agent} {now : ℚ} {e : AssignedTicket}
    (h : e ∈ (resumeNextPaused a now).assigned_tickets) :
    e ∈ a.assigned_tickets ∨
    ∃ p ∈ a.assigned_tickets, p.status = TStatus.paused ∧ e = resumedOf p now := by
  unfold resumeNextPaused at h
  cases hm : pyMaxBy (fun t => t.urgency)
      (a.assigned_tickets.filter (fun t => t.status = TStatus.paused)) with
  | none =>
    rw [hm] at h
    exact Or.inl h
  | some p =>
    rw [hm] at h
    exact resumeTicket_entries h

theorem resumeNextPaused_wf {a : Agent} (now : ℚ) (h : wfAgent a) :
    wfAgent (resumeNextPaused a now) := by
  unfold resumeNextPaused
  cases pyMaxBy (fun t => t.urgency)
      (a.assigned_tickets.filter (fun t => t.status = TStatus.paused)) with
  | none => exact h
  | some p => exact resumeTicket_wf _ _ h

theorem agentStep_entries {a : Agent} {x : String} {now : ℚ} {e : AssignedTicket}
    (h : e ∈ (resumeNextPaused (releaseTicket a (some x)).1 now).assigned_tickets) :
    e ∈ a.assigned_tickets ∨
    ∃ p ∈ a.assigned_tickets, p.status = TStatus.paused ∧ e = resumedOf p now := by
  rcases resumeNextPaused_entries h with h2 | ⟨p, hp, hps, rfl⟩
  · exact Or.inl (releaseTicket_subset h2)
  · exact Or.inr ⟨p, releaseTicket_subset hp, hps, rfl⟩

theorem autoCompleteAgent_entries {a : Agent} {now : ℚ} {e : AssignedTicket}
    (h : e ∈ (autoCompleteAgent now a).assigned_tickets) :
    e ∈ a.assigned_tickets ∨
    ∃ p ∈ a.assigned_tickets, p.status = TStatus.paused ∧ e = resumedOf p now := by
  unfold autoCompleteAgent at h
  revert h
  generalize (a.assigned_tickets.filter (fun t => isExpiredB t now)).map
    (fun t => t.ticket_id) = l
  induction l generalizing a with
  | nil =>
    intro h
    exact Or.inl h
  | cons x xs ih =>
    intro h
    dsimp only at h
    rw [List.foldl_cons] at h
    rcases ih h with h2 | ⟨p, hp, hps, rfl⟩
    · exact agentStep_entries h2
    · rcases agentStep_entries hp with h3 | ⟨q, hq, hqs, hpq⟩
      · exact Or.inr ⟨p, h3, hps, rfl⟩
      · rw [hpq] at hps
        simp [resumedOf] at hps

theorem autoCompleteAgent_wf {a : Agent} (now : ℚ) (h : wfAgent a) :
    wfAgent (autoCompleteAgent now a) := by
  unfold autoCompleteAgent
  revert h
  generalize (a.assigned_tickets.filter (fun t => isExpiredB t now)).map
    (fun t => t.ticket_id) = l
  induction l generalizing a with
  | nil =>
    intro h
    exact h
  | cons x xs ih =>
    intro h
    dsimp only
    rw [List.foldl_cons]
    exact ih (resumeNextPaused_wf _ (releaseTicket_wf _ h))

theorem autoComplete_wf {agents : List Agent} {now : ℚ}
    (hwf : ∀ a ∈ agents, wfAgent a) : ∀ a ∈ autoComplete agents now, wfAgent a := by
  intro a ha
  rcases List.mem_map.mp ha with ⟨a0, ha0, rfl⟩
  exact autoCompleteAgent_wf now (hwf a0 ha0)

theorem acceptTicket_entries {a : Agent} {t : AssignedTicket} {e : AssignedTicket}
    (h : e ∈ (acceptTicket a t).1.assigned_tickets) : e = t ∨ e ∈ a.assigned_tickets := by
  unfold acceptTicket at h
  split_ifs at h
  · exact mem_dictSet h
  · exact Or.inr h

theorem pauseTicket_entries {a : Agent} {tid : String} {now : ℚ} {e : AssignedTicket}
    (h : e ∈ (pauseTicket a tid now).1.assigned_tickets) :
    e ∈ a.assigned_tickets ∨
    ∃ p, dictGet a.assigned_tickets tid = some p ∧ p.status = TStatus.active ∧
      e = { p with elapsed_before_pause := p.elapsed_before_pause + (now - p.started_at),
                   paused_at := some now, status := TStatus.paused } := by
  unfold pauseTicket at h
  cases hg : dictGet a.assigned_tickets tid with
  | none =>
    rw [hg] at h
    exact Or.inl h
  | some p =>
    rw [hg] at h
    dsimp only at h
    split_ifs at h with hs
    · rcases mem_dictSet h with rfl | h2
      · exact Or.inr ⟨p, rfl, hs, rfl⟩
      · exact Or.inl h2
    · exact Or.inl h

theorem selectBestAux_prov (t : TicketRequest) (l : List Agent) :
    ∀ (i0 : ℕ) (acc : Option (ℕ × Agent × ℚ)) (j : ℕ) (b : Agent) (s : ℚ),
    selectBestAux t l i0 acc = some (j, b, s) →
    acc = some (j, b, s) ∨ ∃ k, l[k]? = some b ∧ j = i0 + k := by
  induction l with
  | nil =>
    intro i0 acc j b s h
    exact Or.inl h
  | cons a rest ih =>
    intro i0 acc j b s h
    simp only [selectBestAux] at h
    by_cases hca : canAccept a
    · rw [if_pos hca] at h
      cases acc with
      | none =>
        dsimp only at h
        rcases ih (i0 + 1) _ j b s h with hacc | ⟨k, hk, hj⟩
        · obtain ⟨rfl, rfl, rfl⟩ : i0 = j ∧ a = b ∧ calculateAgentScore a t = s := by
            have h1 := Option.some.inj hacc
            exact ⟨congrArg Prod.fst h1, congrArg (fun p => p.2.1) h1,
              congrArg (fun p => p.2.2) h1⟩
          exact Or.inr ⟨0, by simp, by omega⟩
        · exact Or.inr ⟨k + 1, by simpa using hk, by omega⟩
      | some p =>
        obtain ⟨j0, b0, s0⟩ := p
        dsimp only at h
        split_ifs at h with hgt
        · rcases ih (i0 + 1) _ j b s h with hacc | ⟨k, hk, hj⟩
          · obtain ⟨rfl, rfl, rfl⟩ : i0 = j ∧ a = b ∧ calculateAgentScore a t = s := by
              have h1 := Option.some.inj hacc
              exact ⟨congrArg Prod.fst h1, congrArg (fun p => p.2.1) h1,
                congrArg (fun p => p.2.2) h1⟩
            exact Or.inr ⟨0, by simp, by omega⟩
          · exact Or.inr ⟨k + 1, by simpa using hk, by omega⟩
        · rcases ih (i0 + 1) _ j b s h with hacc | ⟨k, hk, hj⟩
          · exact Or.inl hacc
          · exact Or.inr ⟨k + 1, by simpa using hk, by omega⟩
    · rw [if_neg hca] at h
      rcases ih (i0 + 1) _ j b s h with hacc | ⟨k, hk, hj⟩
      · exact Or.inl hacc
      · exact Or.inr ⟨k + 1, by simpa using hk, by omega⟩

theorem selectBest_prov {l : List Agent} {t : TicketRequest} {j : ℕ} {b : Agent}
    {s : ℚ} (h : selectBest l t = some (j, b, s)) : l[j]? = some b := by
  unfold selectBest at h
  rcases selectBestAux_prov t l 0 none j b s h with h2 | ⟨k, hk, hj⟩
  · exact Option.noConfusion h2
  · obtain rfl : j = k := by omega
    exact hk

end SkillRouting

open SkillRouting in
/-- Claim C3: (a) whenever route_ticket_with_preemption reports a preempted
ticket id, that id names the Active assigned ticket chosen by victim
selection on the auto-completed registry, and its urgency is strictly below
the incoming urgency (the source guard `t.urgency < ticket.urgency`);
(b) no Active entry of the registry preemption operates on whose urgency is
greater than or equal to the incoming urgency ends up Paused: any same-id
entry of the resulting registry at the same agent keeps a non-Paused status.
Well-formedness (distinct ticket ids per agent, guaranteed by the Python
dict) is assumed. -/
theorem C3_theorem (agents : List Agent) (t : TicketRequest) (now : ℚ)
    (hwf : ∀ a ∈ agents, wfAgent a) :
    (∀ aid pid, (routeTicketWithPreemption agents t now).2 = (some aid, some pid) →
      ∃ i v a, selectVictim (autoComplete agents now) t.urgency = some (i, v) ∧
        pid = v.ticket_id ∧ (autoComplete agents now)[i]? = some a ∧
        v ∈ a.assigned_tickets ∧ v.status = TStatus.active ∧
        v.urgency < t.urgency) ∧
    (∀ (i : ℕ) (a : Agent) (e : AssignedTicket),
      (autoComplete agents now)[i]? = some a → e ∈ a.assigned_tickets →
      e.status = TStatus.active → t.urgency ≤ e.urgency →
      ∀ (a' : Agent) (e' : AssignedTicket),
        (routeTicketWithPreemption agents t now).1[i]? = some a' →
        e' ∈ a'.assigned_tickets → e'.ticket_id = e.ticket_id →
        e'.status ≠ TStatus.paused) := by
  constructor
  · intro aid pid h
    simp only [routeTicketWithPreemption] at h
    cases hsb : selectBest (autoComplete agents now) t with
    | some p =>
      rw [hsb] at h
      simp at h
    | none =>
      rw [hsb] at h
      dsimp only at h
      split_ifs at h with hthr
      · simp only [preemptForTicket] at h
        cases hsv : selectVictim (autoComplete agents now) t.urgency with
        | none =>
          rw [hsv] at h
          simp at h
        | some p =>
          obtain ⟨i, v⟩ := p
          rw [hsv] at h
          dsimp only at h
          cases hga : (autoComplete agents now)[i]? with
          | none =>
            rw [hga] at h
            simp at h
          | some a =>
            rw [hga] at h
            dsimp only at h
            obtain ⟨h1, h2⟩ := Prod.mk.injEq .. ▸ h
            have hpid : pid = v.ticket_id := (Option.some.inj h2).symm
            have hsv2 := hsv
            unfold selectVictim at hsv2
            have hb0 : ∀ jb vb, (none : Option (ℕ × AssignedTicket)) = some (jb, vb) →
                vb.urgency < t.urgency := fun jb vb he => Option.noConfusion he
            have hlt := selectVictimAux_lt t.urgency (autoComplete agents now) 0 none
              hb0 i v hsv2
            rcases selectVictimAux_prov t.urgency (autoComplete agents now) 0 none i v
                hsv2 with h3 | ⟨k, b, hk, hki, hoff, hg, _⟩
            · exact Option.noConfusion h3
            · obtain rfl : i = k := by omega
              obtain rfl : a = b := Option.some.inj (hga.symm.trans hk)
              obtain ⟨hmem, hact⟩ := glua_mem hg
              exact ⟨i, v, a, rfl, hpid, hga, hmem, hact, hlt⟩
      · simp at h
  · intro i a e hia he hact hurg a' e' hia' he' hid hps
    have hwfa : wfAgent a := autoComplete_wf hwf a (List.getElem?_mem hia)
    have hilt : i < (autoComplete agents now).length := by
      rcases List.getElem?_eq_some.mp hia with ⟨hl, _⟩
      exact hl
    simp only [routeTicketWithPreemption] at hia'
    cases hsb : selectBest (autoComplete agents now) t with
    | some p =>
      obtain ⟨j, b, sc⟩ := p
      rw [hsb] at hia'
      dsimp only at hia'
      by_cases hij : j = i
      · subst hij
        rw [List.getElem?_set_eq hilt] at hia'
        obtain rfl := Option.some.inj hia'
        obtain rfl : b = a := Option.some.inj ((selectBest_prov hsb).symm.trans hia)
        rcases acceptTicket_entries he' with rfl | h2
        · simp [mkAssigned] at hps
        · obtain rfl : e' = e := nodup_id_unique hwfa h2 he hid
          rw [hact] at hps
          simp at hps
      · rw [List.getElem?_set_ne hij] at hia'
        obtain rfl : a = a' := Option.some.inj (hia.symm.trans hia')
        obtain rfl : e' = e := nodup_id_unique hwfa he' he hid
        rw [hact] at hps
        simp at hps
    | none =>
      rw [hsb] at hia'
      dsimp only at hia'
      split_ifs at hia' with hthr
      · simp only [preemptForTicket] at hia'
        cases hsv : selectVictim (autoComplete agents now) t.urgency with
        | none =>
          rw [hsv] at hia'
          dsimp only at hia'
          obtain rfl : a = a' := Option.some.inj (hia.symm.trans hia')
          obtain rfl : e' = e := nodup_id_unique hwfa he' he hid
          rw [hact] at hps
          simp at hps
        | some p =>
          obtain ⟨k, victim⟩ := p
          rw [hsv] at hia'
          dsimp only at hia'
          cases hgk : (autoComplete agents now)[k]? with
          | none =>
            rw [hgk] at hia'
            dsimp only at hia'
            obtain rfl : a = a' := Option.some.inj (hia.symm.trans hia')
            obtain rfl : e' = e := nodup_id_unique hwfa he' he hid
            rw [hact] at hps
            simp at hps
          | some b =>
            rw [hgk] at hia'
            dsimp only at hia'
            by_cases hki : k = i
            · subst hki
              rw [List.getElem?_set_eq hilt] at hia'
              obtain rfl := Option.some.inj hia'
              obtain rfl : a = b := Option.some.inj (hia.symm.trans hgk)
              have hsv2 := hsv
              unfold selectVictim at hsv2
              have hb0 : ∀ jb vb, (none : Option (ℕ × AssignedTicket)) = some (jb, vb) →
                  vb.urgency < t.urgency := fun jb vb hz => Option.noConfusion hz
              have hvlt := selectVictimAux_lt t.urgency (autoComplete agents now) 0
                none hb0 k victim hsv2
              rcases selectVictimAux_prov t.urgency (autoComplete agents now) 0 none
                  k victim hsv2 with h3 | ⟨k2, a2, hk2, hkk, hoff, hg, _⟩
              · exact Option.noConfusion h3
              · obtain rfl : k = k2 := by omega
                obtain rfl : a = a2 := Option.some.inj (hia.symm.trans hk2)
                obtain ⟨hvmem, hvact⟩ := glua_mem hg
                rcases acceptTicket_entries he' with rfl | h2
                · simp [mkAssigned] at hps
                · rcases pauseTicket_entries h2 with h3 | ⟨q, hqg, hqact, rfl⟩
                  · obtain rfl : e' = e := nodup_id_unique hwfa h3 he hid
                    rw [hact] at hps
                    simp at hps
                  · obtain rfl : victim = q := Option.some.inj
                      ((dictGet_of_mem_nodup hwfa hvmem).symm.trans hqg)
                    have hqe : victim = e := nodup_id_unique hwfa hvmem he hid
                    rw [hqe] at hvlt
                    exact absurd hurg (not_le.mpr hvlt)
            · rw [List.getElem?_set_ne hki] at hia'
              obtain rfl : a = a' := Option.some.inj (hia.symm.trans hia')
              obtain rfl : e' = e := nodup_id_unique hwfa he' he hid
              rw [hact] at hps
              simp at hps
      · obtain rfl : a = a' := Option.some.inj (hia.symm.trans hia')
        obtain rfl : e' = e := nodup_id_unique hwfa he' he hid
        rw [hact] at hps
        simp at hps

namespace SkillRouting

theorem filter_length_dictSet {P : AssignedTicket → Bool} {l : List AssignedTicket}
    {t t2 : AssignedTicket} (hg : dictGet l t2.ticket_id = some t) (hP : P t = P t2) :
    ((dictSet l t2).filter P).length = (l.filter P).length := by
  induction l with
  | nil => simp [dictGet] at hg
  | cons x xs ih =>
    rw [dictSet]
    by_cases hx : x.ticket_id = t2.ticket_id
    · rw [if_pos (beq_iff_eq.mpr hx)]
      obtain rfl : x = t := by
        have : some x = some t := by
          simpa [dictGet, List.find?, beq_iff_eq.mpr hx] using hg
        exact Option.some.inj this
      rw [List.filter_cons, List.filter_cons, hP]
      cases P t2 <;> simp
    · rw [if_neg (by simpa using hx)]
      have hg2 : dictGet xs t2.ticket_id = some t := by
        simpa [dictGet, List.find?, beq_eq_false_iff_ne.mpr hx] using hg
      rw [List.filter_cons, List.filter_cons]
      cases P x <;> simp [ih hg2]

theorem dictSet_not_contains {l : List AssignedTicket} {t : AssignedTicket}
    (h : dictContains l t.ticket_id = false) : dictSet l t = l ++ [t] := by
  induction l with
  | nil => rfl
  | cons x xs ih =>
    rw [dictContains, List.any_cons, Bool.or_eq_false_iff] at h
    rw [dictSet, if_neg (by simp [h.1]), ih h.2, List.cons_append]

theorem dictDel_length {l : List AssignedTicket} {s : String}
    (h : dictContains l s = true) : (dictDel l s).length + 1 = l.length := by
  induction l with
  | nil => simp [dictContains] at h
  | cons x xs ih =>
    rw [dictDel]
    by_cases hx : x.ticket_id = s
    · rw [if_pos (beq_iff_eq.mpr hx)]
      rfl
    · rw [dictContains, List.any_cons, Bool.or_eq_true] at h
      rcases h with h1 | h2
      · exact absurd (beq_iff_eq.mp h1) hx
      · rw [if_neg (by simpa using hx), List.length_cons, List.length_cons, ih h2]

theorem loadInv_filter_all {a : Agent} (h : loadInv a) :
    a.assigned_tickets.filter (fun t => t.status ≠ TStatus.completed)
      = a.assigned_tickets :=
  List.filter_eq_self.mpr (fun t ht => by simpa using h.2 t ht)

end SkillRouting

/-- Claim C1: the claim states that the load invariant (current_load equals
the number of non-Completed table entries) holds after every mutation,
including the preemption path.  Starting from a single full agent satisfying
the invariant, routing an urgency-0.9 ticket takes the preemption path:
the victim is paused but stays in the table while the net load change is
zero, leaving load 1 against two non-Completed entries. -/
theorem C1_counterexample :
    SkillRouting.loadInv SkillRouting.agA ∧
    ∃ a ∈ (SkillRouting.routeTicketWithPreemption [SkillRouting.agA]
        SkillRouting.reqHot 100).1, ¬ SkillRouting.loadInv a := by
  constructor
  · decide
  · norm_num +decide [SkillRouting.routeTicketWithPreemption, SkillRouting.autoComplete,
      SkillRouting.autoCompleteAgent, SkillRouting.isExpiredB, SkillRouting.remainingEta,
      SkillRouting.pymax, SkillRouting.selectBest, SkillRouting.selectBestAux,
      SkillRouting.canAccept, SkillRouting.selectVictim, SkillRouting.selectVictimAux,
      SkillRouting.victimStep, SkillRouting.getLowestUrgencyActive, SkillRouting.pyMinBy,
      SkillRouting.pyMinByAux, SkillRouting.preemptForTicket, SkillRouting.pauseTicket,
      SkillRouting.acceptTicket, SkillRouting.dictGet, SkillRouting.dictSet,
      SkillRouting.dictContains, SkillRouting.mkAssigned, SkillRouting.tkX,
      SkillRouting.agA, SkillRouting.reqHot, SkillRouting.loadInv,
      SkillRouting.PREEMPTION_URGENCY_THRESHOLD, SkillRouting.ETA_BASE_SECONDS,
      List.filter_cons, List.filter_nil]

open SkillRouting in
/-- Claim C1 (amended): the load invariant is preserved by the four
agent-level mutations under their intended-use conditions: accept_ticket
with a fresh non-Completed ticket, pause_ticket, resume_ticket, and
release_ticket with a truthy ticket id that is present in the table.  It is
NOT preserved by the preemption path of route_ticket_with_preemption (see
the counterexample) nor by release/complete with an absent id, which
decrement the load without touching the table. -/
theorem C1_amended (a : Agent) (now : ℚ) (h : loadInv a) :
    (∀ t : AssignedTicket, t.status ≠ TStatus.completed →
      dictContains a.assigned_tickets t.ticket_id = false →
      loadInv (acceptTicket a t).1) ∧
    (∀ tid, loadInv (pauseTicket a tid now).1) ∧
    (∀ tid, loadInv (resumeTicket a tid now).1) ∧
    (∀ s, s ≠ "" → dictContains a.assigned_tickets s = true →
      loadInv (releaseTicket a (some s)).1) := by
  refine ⟨?_, ?_, ?_, ?_⟩
  · intro t ht hfresh
    unfold acceptTicket
    split_ifs with hca
    · refine ⟨?_, ?_⟩
      · dsimp only
        rw [dictSet_not_contains hfresh, List.filter_append, List.filter_cons,
          if_pos (by simpa using ht), List.filter_nil, List.length_append, h.1]
        push_cast [List.length_singleton]
        ring
      · intro e he
        dsimp only at he
        rw [dictSet_not_contains hfresh] at he
        rcases List.mem_append.mp he with h2 | h2
        · exact h.2 e h2
        · rw [List.mem_singleton.mp h2]
          exact ht
    · exact h
  · intro tid
    unfold pauseTicket
    cases hg : dictGet a.assigned_tickets tid with
    | none => exact h
    | some t =>
      dsimp only
      split_ifs with hs
      · have hg2 : dictGet a.assigned_tickets
            ({ t with elapsed_before_pause := t.elapsed_before_pause + (now - t.started_at),
                      paused_at := some now,
                      status := TStatus.paused } : AssignedTicket).ticket_id = some t := by
          have hgt : dictGet a.assigned_tickets t.ticket_id = some t := by
            rw [(dictGet_some_mem hg).2]
            exact hg
          exact hgt
        refine ⟨?_, ?_⟩
        · dsimp only
          rw [filter_length_dictSet hg2 (by simp [hs])]
          exact h.1
        · intro e he
          dsimp only at he
          rcases mem_dictSet he with rfl | h2
          · simp
          · exact h.2 e h2
      · exact h
  · intro tid
    unfold resumeTicket
    cases hg : dictGet a.assigned_tickets tid with
    | none => exact h
    | some t =>
      dsimp only
      split_ifs with hs
      · have hg2 : dictGet a.assigned_tickets
            ({ t with started_at := now, paused_at := none,
                      status := TStatus.active } : AssignedTicket).ticket_id = some t := by
          have hgt : dictGet a.assigned_tickets t.ticket_id = some t := by
            rw [(dictGet_some_mem hg).2]
            exact hg
          exact hgt
        refine ⟨?_, ?_⟩
        · dsimp only
          rw [filter_length_dictSet hg2 (by simp [hs])]
          exact h.1
        · intro e he
          dsimp only at he
          rcases mem_dictSet he with rfl | h2
          · simp
          · exact h.2 e h2
      · exact h
  · intro s hs hc
    have hlen : 0 < a.assigned_tickets.length := by
      rcases dictContains_iff.mp hc with ⟨t, ht, _⟩
      exact List.length_pos.mpr (List.ne_nil_of_mem ht)
    have hload1 : a.current_load = (a.assigned_tickets.length : ℤ) := by
      rw [h.1, loadInv_filter_all h]
    have hload : 0 < a.current_load := by
      rw [hload1]
      exact_mod_cast hlen
    have hdl := dictDel_length (l := a.assigned_tickets) (s := s) hc
    have hall : (dictDel a.assigned_tickets s).filter
        (fun t => t.status ≠ TStatus.completed) = dictDel a.assigned_tickets s :=
      List.filter_eq_self.mpr (fun t ht => by simpa using h.2 t (dictDel_subset ht))
    have hres : releaseTicket a (some s) =
        ({ a with assigned_tickets := dictDel a.assigned_tickets s,
                  current_load := a.current_load - 1 }, true) := by
      unfold releaseTicket
      dsimp only
      rw [if_pos (And.intro hs hc), if_pos hload]
    rw [hres]
    refine ⟨?_, ?_⟩
    · dsimp only
      rw [hall, hload1]
      omega
    · intro e he
      dsimp only at he
      exact h.2 e (dictDel_subset he)

/-- Witness for C1_amended: pausing TX on the concrete agent agA keeps the
load invariant. -/
theorem C1_amended_witness :
    SkillRouting.loadInv (SkillRouting.pauseTicket SkillRouting.agA "TX" 100).1 :=
  (C1_amended SkillRouting.agA 100 (by decide)).2.1 "TX"

/-- Witness for C3_theorem: in the two-agent pool of the C7 scenario the
reported preempted id TX names the selected victim, whose urgency 0.1 lies
strictly below the incoming 0.9. -/
theorem C3_witness :
    ∃ i v a, SkillRouting.selectVictim
        (SkillRouting.autoComplete [SkillRouting.agA, SkillRouting.agB] 100)
        SkillRouting.reqHot.urgency = some (i, v) ∧
      "TX" = v.ticket_id ∧
      (SkillRouting.autoComplete [SkillRouting.agA, SkillRouting.agB] 100)[i]? = some a ∧
      v ∈ a.assigned_tickets ∧ v.status = SkillRouting.TStatus.active ∧
      v.urgency < SkillRouting.reqHot.urgency :=
  (C3_theorem [SkillRouting.agA, SkillRouting.agB] SkillRouting.reqHot 100
      (by decide)).1 "A" "TX"
    (by norm_num +decide [SkillRouting.routeTicketWithPreemption,
      SkillRouting.autoComplete, SkillRouting.autoCompleteAgent,
      SkillRouting.isExpiredB, SkillRouting.remainingEta, SkillRouting.pymax,
      SkillRouting.selectBest, SkillRouting.selectBestAux, SkillRouting.canAccept,
      SkillRouting.selectVictim, SkillRouting.selectVictimAux, SkillRouting.victimStep,
      SkillRouting.getLowestUrgencyActive, SkillRouting.pyMinBy, SkillRouting.pyMinByAux,
      SkillRouting.preemptForTicket, SkillRouting.pauseTicket, SkillRouting.acceptTicket,
      SkillRouting.dictGet, SkillRouting.dictSet, SkillRouting.dictContains,
      SkillRouting.mkAssigned, SkillRouting.tkX, SkillRouting.tkY, SkillRouting.agA,
      SkillRouting.agB, SkillRouting.reqHot, SkillRouting.PREEMPTION_URGENCY_THRESHOLD,
      SkillRouting.ETA_BASE_SECONDS, List.filter_cons, List.filter_nil])

/-- Claim C9: the claim states that an uncaught pipeline exception makes the
worker call fail(ticket_id, error), moving the ticket from the processing set
to the dead-letter list.  In the worker's main loop the catch-all handler
only logs and sleeps: with classification raising on the consumed ticket, the
dead-letter list stays empty and the ticket id stays in the processing set
(the no-assign/no-notify part does hold). -/
theorem C9_counterexample :
    (Worker.consumeTicket Worker.w9.broker).1 = some Worker.msgT1 ∧
    Worker.processTicket (Except.error "boom") (Except.ok true) Worker.w9.registry
      Worker.msgT1 100 = Except.error "boom" ∧
    (Worker.workerLoopBody (Except.error "boom") (Except.ok true)
      Worker.w9 100).broker.deadLetter = [] ∧
    "T1" ∈ (Worker.workerLoopBody (Except.error "boom") (Except.ok true)
      Worker.w9 100).broker.processing ∧
    (Worker.workerLoopBody (Except.error "boom") (Except.ok true)
      Worker.w9 100).registry = Worker.w9.registry ∧
    (Worker.workerLoopBody (Except.error "boom") (Except.ok true)
      Worker.w9 100).notified = [] := by
  refine ⟨rfl, rfl, rfl, ?_, rfl, rfl⟩
  decide

/-- Claim C9 (amended): when a consumed ticket's pipeline processing raises,
the worker loop leaves the world unchanged except for the consume step: the
dead-letter list and completed set keep their prior contents (fail is never
called), the consumed ticket stays in the processing key, and the registry
and the notified set are untouched, so the ticket is neither assigned nor
notified. -/
theorem C9_amended (cr : Except String Worker.ClassifyResult)
    (nr : Except String Bool) (w : Worker.World) (now : ℚ)
    (msg : Worker.TicketMessage) (b1 : Worker.BrokerState)
    (hc : Worker.consumeTicket w.broker = (some msg, b1)) (e : String)
    (hp : Worker.processTicket cr nr w.registry msg now = Except.error e) :
    Worker.workerLoopBody cr nr w now = { w with broker := b1 } ∧
    (Worker.workerLoopBody cr nr w now).broker.deadLetter = w.broker.deadLetter ∧
    (Worker.workerLoopBody cr nr w now).broker.completed = w.broker.completed ∧
    (Worker.workerLoopBody cr nr w now).broker.processing = b1.processing ∧
    (Worker.workerLoopBody cr nr w now).registry = w.registry ∧
    (Worker.workerLoopBody cr nr w now).notified = w.notified := by
  have hdl : b1.deadLetter = w.broker.deadLetter ∧ b1.completed = w.broker.completed := by
    unfold Worker.consumeTicket at hc
    cases hq : w.broker.queue.getLast? with
    | none =>
      rw [hq] at hc
      exact Option.noConfusion (congrArg Prod.fst hc)
    | some m =>
      rw [hq] at hc
      dsimp only at hc
      have h2 := congrArg Prod.snd hc
      dsimp only at h2
      rw [← h2]
      exact ⟨rfl, rfl⟩
  have hbody : Worker.workerLoopBody cr nr w now = { w with broker := b1 } := by
    unfold Worker.workerLoopBody
    rw [hc]
    dsimp only
    rw [hp]
  refine ⟨hbody, ?_, ?_, ?_, ?_, ?_⟩ <;> rw [hbody] <;>
    first
      | exact hdl.1
      | exact hdl.2
      | rfl

/-- Witness for C9_amended: the one-message world with classification
raising "boom". -/
theorem C9_amended_witness :
    Worker.workerLoopBody (Except.error "boom") (Except.ok true) Worker.w9 100
      = { Worker.w9 with broker := ⟨[], ["T1", "json|T1|s"], [], []⟩ } ∧
    (Worker.workerLoopBody (Except.error "boom") (Except.ok true)
      Worker.w9 100).broker.deadLetter = Worker.w9.broker.deadLetter ∧
    (Worker.workerLoopBody (Except.error "boom") (Except.ok true)
      Worker.w9 100).broker.completed = Worker.w9.broker.completed ∧
    (Worker.workerLoopBody (Except.error "boom") (Except.ok true)
      Worker.w9 100).broker.processing
      = (⟨[], ["T1", "json|T1|s"], [], []⟩ : Worker.BrokerState).processing ∧
    (Worker.workerLoopBody (Except.error "boom") (Except.ok true)
      Worker.w9 100).registry = Worker.w9.registry ∧
    (Worker.workerLoopBody (Except.error "boom") (Except.ok true)
      Worker.w9 100).notified = Worker.w9.notified :=
  C9_amended (Except.error "boom") (Except.ok true) Worker.w9 100 Worker.msgT1
    ⟨[], ["T1", "json|T1|s"], [], []⟩ (by decide) "boom" rfl

namespace Dedup

theorem findLink_nil {E : Type} (l : List (TicketEntry E)) :
    findLink ([] : List MasterIncident) l = none := by
  induction l with
  | nil => rfl
  | cons s rest ih =>
    rw [findLink]
    exact ih

theorem addTicket_fallthrough {E : Type} (getEmb : String → E) (cos : E → E → ℚ)
    (es : List (TicketEntry E)) (u : ℕ) (s : String × String × String × ℚ)
    (hfilter : es.filter (entryMatches cos (getEmb (s.2.1 ++ " " ++ s.2.2.1)) s.2.2.2) = es)
    (hlen : es.length < DUPLICATE_COUNT_THRESHOLD)
    (hclean : cleanupOld (es ++ [entryOf getEmb s]) s.2.2.2 = es ++ [entryOf getEmb s]) :
    addTicket getEmb cos ⟨es, [], u⟩ s.1 s.2.1 s.2.2.1 s.2.2.2
      = ((false, none), ⟨es ++ [entryOf getEmb s], [], u⟩) := by
  have hclean' : cleanupOld
      (es ++ [(⟨s.1, s.2.1, s.2.2.1, getEmb (s.2.1 ++ " " ++ s.2.2.1), s.2.2.2,
        false⟩ : TicketEntry E)]) s.2.2.2
      = es ++ [entryOf getEmb s] := hclean
  simp only [addTicket]
  rw [hfilter]
  by_cases h0 : es.length ≠ 0
  · rw [if_pos h0, if_neg (not_le.mpr hlen), findLink_nil]
    try dsimp only
    rw [hclean']
  · rw [if_neg h0]
    try dsimp only
    rw [hclean']

theorem addTicket_creates {E : Type} (getEmb : String → E) (cos : E → E → ℚ)
    (es : List (TicketEntry E)) (u : ℕ) (s : String × String × String × ℚ)
    (hfilter : es.filter (entryMatches cos (getEmb (s.2.1 ++ " " ++ s.2.2.1)) s.2.2.2) = es)
    (hlen : DUPLICATE_COUNT_THRESHOLD ≤ es.length) :
    (addTicket getEmb cos ⟨es, [], u⟩ s.1 s.2.1 s.2.2.1 s.2.2.2).1
      = (true, some (masterId u)) ∧
    ∃ m, (addTicket getEmb cos ⟨es, [], u⟩ s.1 s.2.1 s.2.2.1 s.2.2.2).2.masters = [m] ∧
      m.master_id = masterId u ∧
      m.ticket_ids = es.map (fun t => t.ticket_id) ++ [s.1] ∧
      m.suppressed_count = es.length := by
  have h0 : es.length ≠ 0 := by
    have h10 : (0 : ℕ) < DUPLICATE_COUNT_THRESHOLD := by norm_num [DUPLICATE_COUNT_THRESHOLD]
    omega
  simp only [addTicket]
  rw [hfilter, if_pos h0, if_pos hlen]
  refine ⟨rfl, ⟨_, rfl, rfl, rfl, ?_⟩⟩
  simp

theorem runAdds_fallthrough {E : Type} (getEmb : String → E) (cos : E → E → ℚ)
    (P : List (TicketEntry E)) :
    ∀ (subs : List (String × String × String × ℚ)) (es : List (TicketEntry E)) (u : ℕ),
    (∀ e ∈ es, e ∈ P) →
    (∀ s ∈ subs, entryOf getEmb s ∈ P) →
    (∀ e ∈ es, e.processed = false) →
    es.length + subs.length ≤ DUPLICATE_COUNT_THRESHOLD →
    (∀ s ∈ subs, ∀ e ∈ P,
      SIMILARITY_THRESHOLD < cos (getEmb (s.2.1 ++ " " ++ s.2.2.1)) e.embedding) →
    (∀ s ∈ subs, ∀ e ∈ P,
      ¬ (e.created_at < s.2.2.2 - DUPLICATE_TIME_WINDOW_MINUTES)) →
    runAdds getEmb cos ⟨es, [], u⟩ subs
      = (List.replicate subs.length (false, none),
         ⟨es ++ subs.map (entryOf getEmb), [], u⟩) := by
  intro subs
  induction subs with
  | nil =>
    intro es u _ _ _ _ _ _
    simp [runAdds]
  | cons s rest ih =>
    intro es u hesP hsubP hproc htot hsim hwin
    have hfilter : es.filter
        (entryMatches cos (getEmb (s.2.1 ++ " " ++ s.2.2.1)) s.2.2.2) = es := by
      refine List.filter_eq_self.mpr (fun e he => ?_)
      have h1 : ¬ (e.created_at < s.2.2.2 - DUPLICATE_TIME_WINDOW_MINUTES ∨
          e.processed = true) := by
        rintro (hco | hco)
        · exact hwin s (List.mem_cons_self _ _) e (hesP e he) hco
        · rw [hproc e he] at hco
          exact Bool.false_ne_true hco
      have h2 := hsim s (List.mem_cons_self _ _) e (hesP e he)
      unfold entryMatches
      rw [if_neg h1, if_pos h2]
    have hclean : cleanupOld (es ++ [entryOf getEmb s]) s.2.2.2
        = es ++ [entryOf getEmb s] := by
      refine List.filter_eq_self.mpr (fun e he => ?_)
      rcases List.mem_append.mp he with h | h
      · have h5 := not_lt.mp (hwin s (List.mem_cons_self _ _) e (hesP e h))
        rw [if_pos (by unfold DUPLICATE_TIME_WINDOW_MINUTES at h5 ⊢; linarith)]
      · obtain rfl := List.mem_singleton.mp h
        rw [if_pos (by norm_num [entryOf, DUPLICATE_TIME_WINDOW_MINUTES])]
    have hlen2 : es.length < DUPLICATE_COUNT_THRESHOLD := by
      rw [List.length_cons] at htot
      omega
    have hstep := addTicket_fallthrough getEmb cos es u s hfilter hlen2 hclean
    have hesP' : ∀ e ∈ es ++ [entryOf getEmb s], e ∈ P := by
      intro e he
      rcases List.mem_append.mp he with h | h
      · exact hesP e h
      · obtain rfl := List.mem_singleton.mp h
        exact hsubP s (List.mem_cons_self _ _)
    have hsubP' : ∀ s2 ∈ rest, entryOf getEmb s2 ∈ P :=
      fun s2 hs2 => hsubP s2 (List.mem_cons_of_mem _ hs2)
    have hproc' : ∀ e ∈ es ++ [entryOf getEmb s], e.processed = false := by
      intro e he
      rcases List.mem_append.mp he with h | h
      · exact hproc e h
      · obtain rfl := List.mem_singleton.mp h
        rfl
    have htot' : (es ++ [entryOf getEmb s]).length + rest.length
        ≤ DUPLICATE_COUNT_THRESHOLD := by
      rw [List.length_cons] at htot
      rw [List.length_append]
      simp only [List.length_singleton]
      omega
    have hsim' : ∀ s2 ∈ rest, ∀ e ∈ P,
        SIMILARITY_THRESHOLD < cos (getEmb (s2.2.1 ++ " " ++ s2.2.2.1)) e.embedding :=
      fun s2 hs2 => hsim s2 (List.mem_cons_of_mem _ hs2)
    have hwin' : ∀ s2 ∈ rest, ∀ e ∈ P,
        ¬ (e.created_at < s2.2.2.2 - DUPLICATE_TIME_WINDOW_MINUTES) :=
      fun s2 hs2 => hwin s2 (List.mem_cons_of_mem _ hs2)
    simp only [runAdds]
    rw [hstep]
    dsimp only
    rw [ih (es ++ [entryOf getEmb s]) u hesP' hsubP' hproc' htot' hsim' hwin']
    simp [List.replicate_succ, List.append_assoc]

theorem runAdds_append {E : Type} (g : String → E) (c : E → E → ℚ) (st : DState E)
    (l1 l2 : List (String × String × String × ℚ)) :
    runAdds g c st (l1 ++ l2)
      = ((runAdds g c st l1).1 ++ (runAdds g c (runAdds g c st l1).2 l2).1,
         (runAdds g c (runAdds g c st l1).2 l2).2) := by
  induction l1 generalizing st with
  | nil => simp [runAdds]
  | cons s rest ih =>
    simp only [List.cons_append, runAdds]
    simp only [List.append_eq]
    rw [ih]

end Dedup

/-- Claim C2: the claim states that the 10th similar submission creates the
Master Incident.  With a constant-similarity embedding (every pair strictly
above the threshold) and ten submissions at the same instant, the 10th call
still returns (false, none) and no master exists: at the 10th call only 9
tracked similar tickets are found, below the count threshold of 10 (the
master is created by the 11th submission with 11 members). -/
theorem C2_counterexample :
    (Dedup.runAdds (fun _ => ()) (fun _ _ => (1 : ℚ)) (Dedup.emptyD Unit) Dedup.subsC2).1
      = List.replicate 10 (false, none) ∧
    (Dedup.runAdds (fun _ => ()) (fun _ _ => (1 : ℚ)) (Dedup.emptyD Unit)
      Dedup.subsC2).2.masters = [] := by
  norm_num +decide [Dedup.runAdds, Dedup.addTicket, Dedup.entryMatches, Dedup.cleanupOld,
    Dedup.findLink, Dedup.findMasterIdx, Dedup.emptyD, Dedup.subsC2,
    Dedup.SIMILARITY_THRESHOLD, Dedup.DUPLICATE_TIME_WINDOW_MINUTES,
    Dedup.DUPLICATE_COUNT_THRESHOLD, List.filter_cons, List.filter_nil,
    List.replicate]

/-- Claim C2 (amended): starting from an empty deduplicator, with all
pairwise similarities strictly above the threshold and every submission
inside the time window of every other, the first 10 submissions each return
(false, none) and leave the master dict empty; appending an 11th such
submission makes the last call return (true, master_id) and creates exactly
one Master Incident, whose member list has 11 ticket ids and whose
suppressed_count is 10. -/
theorem C2_amended {E : Type} (getEmb : String → E) (cos : E → E → ℚ)
    (subs : List (String × String × String × ℚ)) (s11 : String × String × String × ℚ)
    (hlen : subs.length = Dedup.DUPLICATE_COUNT_THRESHOLD)
    (hsim : ∀ s ∈ subs ++ [s11], ∀ e ∈ (subs ++ [s11]).map (Dedup.entryOf getEmb),
      Dedup.SIMILARITY_THRESHOLD < cos (getEmb (s.2.1 ++ " " ++ s.2.2.1)) e.embedding)
    (hwin : ∀ s ∈ subs ++ [s11], ∀ e ∈ (subs ++ [s11]).map (Dedup.entryOf getEmb),
      ¬ (e.created_at < s.2.2.2 - Dedup.DUPLICATE_TIME_WINDOW_MINUTES)) :
    (Dedup.runAdds getEmb cos (Dedup.emptyD E) subs).1
        = List.replicate Dedup.DUPLICATE_COUNT_THRESHOLD (false, none) ∧
    (Dedup.runAdds getEmb cos (Dedup.emptyD E) subs).2.masters = [] ∧
    ∃ m, (Dedup.runAdds getEmb cos (Dedup.emptyD E) (subs ++ [s11])).1
        = List.replicate Dedup.DUPLICATE_COUNT_THRESHOLD (false, none)
          ++ [(true, some m.master_id)] ∧
      (Dedup.runAdds getEmb cos (Dedup.emptyD E) (subs ++ [s11])).2.masters = [m] ∧
      m.ticket_ids.length = Dedup.DUPLICATE_COUNT_THRESHOLD + 1 ∧
      m.suppressed_count = Dedup.DUPLICATE_COUNT_THRESHOLD := by
  have hempty : (Dedup.emptyD E) = (⟨[], [], 0⟩ : Dedup.DState E) := rfl
  have hsubP : ∀ s ∈ subs,
      Dedup.entryOf getEmb s ∈ (subs ++ [s11]).map (Dedup.entryOf getEmb) :=
    fun s hs => List.mem_map_of_mem _ (List.mem_append_left _ hs)
  have h10 := Dedup.runAdds_fallthrough getEmb cos
    ((subs ++ [s11]).map (Dedup.entryOf getEmb)) subs [] 0
    (by intro e he; simp at he) hsubP (by intro e he; simp at he)
    (by simp [hlen]) (fun s hs => hsim s (List.mem_append_left _ hs))
    (fun s hs => hwin s (List.mem_append_left _ hs))
  have hfilter11 : (subs.map (Dedup.entryOf getEmb)).filter
      (Dedup.entryMatches cos (getEmb (s11.2.1 ++ " " ++ s11.2.2.1)) s11.2.2.2)
      = subs.map (Dedup.entryOf getEmb) := by
    refine List.filter_eq_self.mpr (fun e he => ?_)
    have heP : e ∈ (subs ++ [s11]).map (Dedup.entryOf getEmb) := by
      rw [List.map_append]
      exact List.mem_append_left _ he
    have hpr : e.processed = false := by
      obtain ⟨s2, _, rfl⟩ := List.mem_map.mp he
      rfl
    have hs11 : s11 ∈ subs ++ [s11] :=
      List.mem_append_right _ (List.mem_singleton_self _)
    have h1 : ¬ (e.created_at < s11.2.2.2 - Dedup.DUPLICATE_TIME_WINDOW_MINUTES ∨
        e.processed = true) := by
      rintro (hco | hco)
      · exact hwin s11 hs11 e heP hco
      · rw [hpr] at hco
        exact Bool.false_ne_true hco
    have h2 := hsim s11 hs11 e heP
    unfold Dedup.entryMatches
    rw [if_neg h1, if_pos h2]
  have hlen11 : Dedup.DUPLICATE_COUNT_THRESHOLD ≤ (subs.map (Dedup.entryOf getEmb)).length := by
    rw [List.length_map, hlen]
  obtain ⟨hres, m, hm, hmid, htids, hsupp⟩ :=
    Dedup.addTicket_creates getEmb cos (subs.map (Dedup.entryOf getEmb)) 0 s11
      hfilter11 hlen11
  refine ⟨?_, ?_, m, ?_, ?_, ?_, ?_⟩
  · rw [hempty, h10]
    try dsimp only
    rw [hlen]
  · rw [hempty, h10]
  · rw [hempty, Dedup.runAdds_append, h10]
    try dsimp only
    rw [List.nil_append]
    simp only [Dedup.runAdds]
    rw [hres]
    try dsimp only
    rw [hlen, hmid]
  · rw [hempty, Dedup.runAdds_append, h10]
    try dsimp only
    rw [List.nil_append]
    simp only [Dedup.runAdds]
    try dsimp only
    exact hm
  · rw [htids]
    simp [hlen]
  · rw [hsupp, List.length_map, hlen]

/-- Witness for C2_amended: eleven identical-time submissions under the
constant-1 cosine. -/
theorem C2_amended_witness :
    (Dedup.runAdds (fun _ => ()) (fun _ _ => (1 : ℚ)) (Dedup.emptyD Unit) Dedup.subsC2).1
        = List.replicate Dedup.DUPLICATE_COUNT_THRESHOLD (false, none) ∧
    (Dedup.runAdds (fun _ => ()) (fun _ _ => (1 : ℚ)) (Dedup.emptyD Unit)
        Dedup.subsC2).2.masters = [] ∧
    ∃ m, (Dedup.runAdds (fun _ => ()) (fun _ _ => (1 : ℚ)) (Dedup.emptyD Unit)
        (Dedup.subsC2 ++ [Dedup.s11C2])).1
        = List.replicate Dedup.DUPLICATE_COUNT_THRESHOLD (false, none)
          ++ [(true, some m.master_id)] ∧
      (Dedup.runAdds (fun _ => ()) (fun _ _ => (1 : ℚ)) (Dedup.emptyD Unit)
        (Dedup.subsC2 ++ [Dedup.s11C2])).2.masters = [m] ∧
      m.ticket_ids.length = Dedup.DUPLICATE_COUNT_THRESHOLD + 1 ∧
      m.suppressed_count = Dedup.DUPLICATE_COUNT_THRESHOLD :=
  C2_amended (fun _ => ()) (fun _ _ => (1 : ℚ)) Dedup.subsC2 Dedup.s11C2 rfl
    (fun s _ e _ => by norm_num [Dedup.SIMILARITY_THRESHOLD])
    (by
      intro s hs e he
      obtain ⟨s2, hs2, rfl⟩ := List.mem_map.mp he
      have hse : s.2.2.2 = 0 := by
        simp only [Dedup.subsC2, Dedup.s11C2, List.cons_append, List.nil_append] at hs
        fin_cases hs <;> rfl
      have hs2e : s2.2.2.2 = 0 := by
        simp only [Dedup.subsC2, Dedup.s11C2, List.cons_append, List.nil_append] at hs2
        fin_cases hs2 <;> rfl
      show ¬ ((Dedup.entryOf (fun _ => ()) s2).created_at
        < s.2.2.2 - Dedup.DUPLICATE_TIME_WINDOW_MINUTES)
      rw [show (Dedup.entryOf (fun _ => ()) s2).created_at = s2.2.2.2 from rfl, hs2e, hse]
      norm_num [Dedup.DUPLICATE_TIME_WINDOW_MINUTES])

/-- Claim C8: the claim asserts size() = |index| and heap/index agreement at
every state reachable with distinct ticket ids.  Two tickets with distinct
ids "b" and "a" but equal priority and timestamp break it: update_priority
on "a" makes list.remove (which compares by the dataclass's compare fields
(priority, timestamp) only) delete "b"'s heap entry instead, so after two
dequeues the heap is empty while the index still holds one entry. -/
theorem C8_counterexample :
    PQ.sizePQ (PQ.applyOps PQ.emptyPQ PQ.ce8ops) = 0 ∧
    (PQ.applyOps PQ.emptyPQ PQ.ce8ops).index.length = 1 ∧
    ("a" : String) ≠ "b" := by
  refine ⟨?_, ?_, by decide⟩ <;>
    norm_num +decide [PQ.applyOps, PQ.applyOp, PQ.ce8ops, PQ.emptyPQ, PQ.enqueue,
      PQ.dequeue, PQ.updatePriority, PQ.sizePQ, PQ.mkTicket, PQ.heappush, PQ.heappop,
      PQ.pySiftdown, PQ.pySiftup, PQ.siftdownLoop, PQ.siftupLoop, PQ.pyHeapify,
      PQ.removeFirstEq, PQ.lget, PQ.dfltTicket, PQ.tklt, PQ.teq, PQ.idxGet,
      PQ.idxContains, PQ.idxSet, PQ.idxDel, PQ.clearPQ, List.filter_cons,
      List.filter_nil, List.eraseP, List.range_succ, List.foldl]

namespace PQ

theorem map_nodup_unique {α β : Type} {f : α → β} {l : List α}
    (hnd : (l.map f).Nodup) {a b : α}
    (ha : a ∈ l) (hb : b ∈ l) (h : f a = f b) : a = b := by
  induction l with
  | nil => simp at ha
  | cons x xs ih =>
    rw [List.map_cons, List.nodup_cons] at hnd
    rcases List.mem_cons.mp ha with rfl | ha2 <;> rcases List.mem_cons.mp hb with rfl | hb2
    · rfl
    · exact absurd (h ▸ List.mem_map_of_mem f hb2) hnd.1
    · exact absurd (h ▸ List.mem_map_of_mem f ha2) hnd.1
    · exact ih hnd.2 ha2 hb2

theorem set_perm : ∀ (l : List Ticket) (i : ℕ) (x : Ticket), i < l.length →
    (l.set i x).Perm (x :: l.eraseIdx i)
  | [], i, x, h => by simp at h
  | a :: as, 0, x, _ => by
    rw [List.set_cons_zero]
    exact List.Perm.refl _
  | a :: as, i + 1, x, h => by
    rw [List.set_cons_succ]
    have ih := set_perm as i x (by simpa using h)
    show (a :: as.set i x).Perm (x :: a :: as.eraseIdx i)
    exact (ih.cons a).trans (List.Perm.swap _ _ _)

theorem get_perm : ∀ (l : List Ticket) (i : ℕ), i < l.length →
    l.Perm (lget l i :: l.eraseIdx i)
  | [], i, h => by simp at h
  | a :: as, 0, _ => by
    exact List.Perm.refl _
  | a :: as, i + 1, h => by
    have ih := get_perm as i (by simpa using h)
    show (a :: as).Perm (lget as i :: a :: as.eraseIdx i)
    exact (ih.cons a).trans (List.Perm.swap _ _ _)

theorem set_lget_perm (l : List Ticket) (i : ℕ) (h : i < l.length) :
    (l.set i (lget l i)).Perm l :=
  (set_perm l i (lget l i) h).trans (get_perm l i h).symm

theorem lget_set_ne (l : List Ticket) (i j : ℕ) (y : Ticket) (hne : i ≠ j) :
    lget (l.set i y) j = lget l j := by
  unfold lget
  rw [List.getD_eq_getElem?_getD, List.getD_eq_getElem?_getD, List.getElem?_set_ne hne]

theorem set_set_perm (l : List Ticket) (i j : ℕ) (x : Ticket)
    (hi : i < l.length) (hj : j < l.length) (hne : i ≠ j) :
    ((l.set i (lget l j)).set j x).Perm (l.set i x) := by
  have h1 : (l.set i (lget l j)).Perm (lget l j :: l.eraseIdx i) := set_perm l i _ hi
  have h2 : (l.set i (lget l j)).Perm
      (lget (l.set i (lget l j)) j :: (l.set i (lget l j)).eraseIdx j) :=
    get_perm _ j (by rw [List.length_set]; exact hj)
  rw [lget_set_ne l i j _ hne] at h2
  have h3 : ((l.set i (lget l j)).eraseIdx j).Perm (l.eraseIdx i) :=
    (h2.symm.trans h1).cons_inv
  exact ((set_perm _ j x (by rw [List.length_set]; exact hj)).trans
    (h3.cons x)).trans (set_perm l i x hi).symm

theorem siftdownLoop_perm (newitem : Ticket) (sp : ℕ) :
    ∀ (fuel : ℕ) (heap : List Ticket) (pos : ℕ), pos < heap.length →
    (siftdownLoop newitem sp fuel heap pos).Perm (heap.set pos newitem)
  | 0, heap, pos, _ => by
    rw [siftdownLoop]
  | fuel + 1, heap, pos, h => by
    simp only [siftdownLoop]
    split_ifs with h1 h2
    · have hpos1 : 0 < pos := Nat.lt_of_le_of_lt (Nat.zero_le _) h1
      have hpp : (pos - 1) / 2 < pos := by omega
      have hpplen : (pos - 1) / 2 < heap.length := lt_trans hpp h
      have ih := siftdownLoop_perm newitem sp fuel
        (heap.set pos (lget heap ((pos - 1) / 2))) ((pos - 1) / 2)
        (by rw [List.length_set]; exact hpplen)
      exact ih.trans (set_set_perm heap pos ((pos - 1) / 2) newitem h hpplen (by omega))
    · exact List.Perm.refl _
    · exact List.Perm.refl _

theorem siftupLoop_spec :
    ∀ (fuel : ℕ) (heap : List Ticket) (pos : ℕ), pos < heap.length →
    (siftupLoop fuel heap pos).1.length = heap.length ∧
    (siftupLoop fuel heap pos).2 < heap.length ∧
    ∀ x, ((siftupLoop fuel heap pos).1.set (siftupLoop fuel heap pos).2 x).Perm
      (heap.set pos x)
  | 0, heap, pos, h => ⟨rfl, h, fun _ => List.Perm.refl _⟩
  | fuel + 1, heap, pos, h => by
    rw [siftupLoop]
    split_ifs with h1
    · set cp2 := if 2 * pos + 1 + 1 < heap.length ∧
          ¬ tklt (lget heap (2 * pos + 1)) (lget heap (2 * pos + 1 + 1))
        then 2 * pos + 1 + 1 else 2 * pos + 1 with hcp2
      have hcp2len : cp2 < heap.length := by
        rw [hcp2]
        split_ifs with h3
        · exact h3.1
        · exact h1
      have hne : pos ≠ cp2 := by
        rw [hcp2]
        split_ifs <;> omega
      have ih := siftupLoop_spec fuel (heap.set pos (lget heap cp2)) cp2
        (by rw [List.length_set]; exact hcp2len)
      refine ⟨by rw [ih.1, List.length_set], ?_, ?_⟩
      · have := ih.2.1
        rw [List.length_set] at this
        exact this
      · intro x
        exact (ih.2.2 x).trans (set_set_perm heap pos cp2 x h hcp2len hne)
    · exact ⟨rfl, h, fun _ => List.Perm.refl _⟩

theorem heappush_perm (heap : List Ticket) (item : Ticket) :
    (heappush heap item).Perm (item :: heap) := by
  have hlen : (heap ++ [item]).length - 1 < (heap ++ [item]).length := by
    rw [List.length_append]
    simp
  have h1 : (heappush heap item).Perm
      ((heap ++ [item]).set ((heap ++ [item]).length - 1)
        (lget (heap ++ [item]) ((heap ++ [item]).length - 1))) :=
    siftdownLoop_perm _ 0 _ _ _ hlen
  exact (h1.trans (set_lget_perm _ _ hlen)).trans (List.perm_append_singleton item heap)

theorem pySiftup_perm (heap : List Ticket) (pos : ℕ) (h : pos < heap.length) :
    (pySiftup heap pos).Perm heap := by
  obtain ⟨hl, hp, hs⟩ := siftupLoop_spec heap.length heap pos h
  have hp2 : (siftupLoop heap.length heap pos).2
      < ((siftupLoop heap.length heap pos).1.set (siftupLoop heap.length heap pos).2
        (lget heap pos)).length := by
    rw [List.length_set, hl]
    exact hp
  have hstep : (siftdownLoop (lget heap pos) pos (siftupLoop heap.length heap pos).2
      ((siftupLoop heap.length heap pos).1.set (siftupLoop heap.length heap pos).2
        (lget heap pos)) (siftupLoop heap.length heap pos).2).Perm
      (((siftupLoop heap.length heap pos).1.set (siftupLoop heap.length heap pos).2
        (lget heap pos)).set (siftupLoop heap.length heap pos).2 (lget heap pos)) :=
    siftdownLoop_perm _ _ _ _ _ hp2
  rw [List.set_set] at hstep
  exact hstep.trans ((hs _).trans (set_lget_perm heap pos h))

theorem foldl_pySiftup_perm :
    ∀ (idxs : List ℕ) (h : List Ticket), (∀ i ∈ idxs, i < h.length) →
    (idxs.foldl (fun h2 i => pySiftup h2 i) h).Perm h
  | [], h, _ => List.Perm.refl _
  | i :: rest, h, hlt => by
    rw [List.foldl_cons]
    have hi : i < h.length := hlt i (List.mem_cons_self _ _)
    have hperm : (pySiftup h i).Perm h := pySiftup_perm h i hi
    have hrest : ∀ j ∈ rest, j < (pySiftup h i).length := by
      intro j hj
      rw [hperm.length_eq]
      exact hlt j (List.mem_cons_of_mem _ hj)
    exact (foldl_pySiftup_perm rest (pySiftup h i) hrest).trans hperm

theorem pyHeapify_perm (l : List Ticket) : (pyHeapify l).Perm l := by
  unfold pyHeapify
  refine foldl_pySiftup_perm _ l ?_
  intro i hi
  rw [List.mem_reverse, List.mem_range] at hi
  omega

theorem heappop_spec (heap : List Ticket) (hne : heap ≠ []) :
    ∃ t h2, heappop heap = (some t, h2) ∧ (t :: h2).Perm heap := by
  unfold heappop
  cases hl : heap.getLast? with
  | none =>
    exact absurd (List.getLast?_eq_none_iff.mp hl) hne
  | some last =>
    have hdec : heap = heap.dropLast ++ [last] := by
      conv_lhs => rw [← List.dropLast_append_getLast hne]
      have hgl : heap.getLast hne = last := by
        rw [List.getLast?_eq_getLast heap hne] at hl
        exact Option.some.inj hl
      rw [hgl]
    dsimp only
    split_ifs with h0
    · have h0' : 0 < heap.dropLast.length := Nat.pos_of_ne_zero h0
      have hlen : 0 < (heap.dropLast.set 0 last).length := by
        rw [List.length_set]
        exact h0'
      refine ⟨lget heap.dropLast 0, _, rfl, ?_⟩
      have hps : (pySiftup (heap.dropLast.set 0 last) 0).Perm (heap.dropLast.set 0 last) :=
        pySiftup_perm _ 0 hlen
      have hchain : (lget heap.dropLast 0 :: pySiftup (heap.dropLast.set 0 last) 0).Perm
          (heap.dropLast ++ [last]) := by
        have c1 := hps.cons (lget heap.dropLast 0)
        have c2 := (set_perm heap.dropLast 0 last h0').cons (lget heap.dropLast 0)
        have c3 : (lget heap.dropLast 0 :: last :: heap.dropLast.eraseIdx 0).Perm
            (last :: lget heap.dropLast 0 :: heap.dropLast.eraseIdx 0) :=
          List.Perm.swap _ _ _
        have c4 := ((get_perm heap.dropLast 0 h0').symm).cons last
        exact (((c1.trans c2).trans c3).trans c4).trans
          (List.perm_append_singleton _ _).symm
      rw [← hdec] at hchain
      exact hchain
    · refine ⟨last, heap.dropLast, rfl, ?_⟩
      have hnil : heap.dropLast = [] := List.length_eq_zero.mp (by omega)
      rw [hnil, hdec, hnil]
      exact List.Perm.refl _

end PQ

namespace PQ

theorem idxContains_false_not_mem {l : List (String × Ticket)} {k : String}
    (h : idxContains l k = false) : k ∉ l.map (fun p => p.1) := by
  intro hk
  rcases List.mem_map.mp hk with ⟨p, hp, hpk⟩
  simp only [idxContains, List.any_eq_false] at h
  exact h p hp (beq_iff_eq.mpr hpk)

theorem idxContains_true_of_mem {l : List (String × Ticket)} {p : String × Ticket}
    (hp : p ∈ l) : idxContains l p.1 = true := by
  simp only [idxContains, List.any_eq_true]
  exact ⟨p, hp, beq_self_eq_true _⟩

theorem idxSet_fresh {l : List (String × Ticket)} {k : String} (t : Ticket)
    (h : idxContains l k = false) : idxSet l k t = l ++ [(k, t)] := by
  induction l with
  | nil => rfl
  | cons x xs ih =>
    rw [idxContains, List.any_cons, Bool.or_eq_false_iff] at h
    rw [idxSet, if_neg (by simp [h.1]), ih h.2, List.cons_append]

theorem idxGet_some_mem {l : List (String × Ticket)} {k : String} {v : Ticket}
    (h : idxGet l k = some v) : ∃ p ∈ l, p.1 = k ∧ p.2 = v := by
  unfold idxGet at h
  cases hf : l.find? (fun p => p.1 == k) with
  | none =>
    rw [hf] at h
    simp at h
  | some p =>
    rw [hf] at h
    have hm := List.mem_of_find?_eq_some hf
    have hk := List.find?_some hf
    refine ⟨p, hm, by simpa using hk, by simpa using h⟩

theorem idx_replace {l : List (String × Ticket)} {k : String} {old : Ticket}
    (h : idxGet l k = some old) (t : Ticket) :
    ((idxSet l k t).map (fun p => p.2)).Perm (t :: (idxDel l k).map (fun p => p.2)) ∧
    (l.map (fun p => p.2)).Perm (old :: (idxDel l k).map (fun p => p.2)) ∧
    (idxSet l k t).map (fun p => p.1) = l.map (fun p => p.1) := by
  induction l with
  | nil => simp [idxGet] at h
  | cons x xs ih =>
    by_cases hx : x.1 = k
    · have hold : old = x.2 := by
        have hgx : idxGet (x :: xs) k = some x.2 := by
          unfold idxGet
          rw [List.find?_cons_of_pos _ (by simp [hx])]
          rfl
        rw [hgx] at h
        exact (Option.some.inj h).symm
      subst hold
      refine ⟨?_, ?_, ?_⟩
      · rw [idxSet, if_pos (beq_iff_eq.mpr hx), idxDel, if_pos (beq_iff_eq.mpr hx)]
        exact List.Perm.refl _
      · rw [idxDel, if_pos (beq_iff_eq.mpr hx)]
        exact List.Perm.refl _
      · rw [idxSet, if_pos (beq_iff_eq.mpr hx)]
        simp [hx]
    · have h2 : idxGet xs k = some old := by
        unfold idxGet at h ⊢
        rw [List.find?_cons_of_neg _ (by simp [hx])] at h
        exact h
      obtain ⟨p1, p2, p3⟩ := ih h2
      refine ⟨?_, ?_, ?_⟩
      · rw [idxSet, if_neg (by simp [hx]), idxDel, if_neg (by simp [hx])]
        simp only [List.map_cons]
        exact (p1.cons x.2).trans (List.Perm.swap _ _ _)
      · rw [idxDel, if_neg (by simp [hx])]
        simp only [List.map_cons]
        exact (p2.cons x.2).trans (List.Perm.swap _ _ _)
      · rw [idxSet, if_neg (by simp [hx])]
        simp only [List.map_cons, p3]

theorem idxDel_keys_sublist (l : List (String × Ticket)) (k : String) :
    ((idxDel l k).map (fun p => p.1)).Sublist (l.map (fun p => p.1)) := by
  induction l with
  | nil => simp [idxDel]
  | cons x xs ih =>
    rw [idxDel]
    split_ifs
    · rw [List.map_cons]
      exact List.sublist_cons_self _ _
    · rw [List.map_cons, List.map_cons]
      exact List.Sublist.cons₂ _ ih

theorem idxDel_subset {l : List (String × Ticket)} {k : String} {p : String × Ticket}
    (h : p ∈ idxDel l k) : p ∈ l := by
  induction l with
  | nil => simpa [idxDel] using h
  | cons x xs ih =>
    rw [idxDel] at h
    split_ifs at h
    · exact List.mem_cons_of_mem _ h
    · rcases List.mem_cons.mp h with rfl | h2
      · exact List.mem_cons_self _ _
      · exact List.mem_cons_of_mem _ (ih h2)

theorem mem_idxSet {l : List (String × Ticket)} {k : String} {t : Ticket}
    {p : String × Ticket} (h : p ∈ idxSet l k t) : p = (k, t) ∨ p ∈ l := by
  induction l with
  | nil => simpa [idxSet] using h
  | cons x xs ih =>
    rw [idxSet] at h
    split_ifs at h
    · rcases List.mem_cons.mp h with rfl | h2
      · exact Or.inl rfl
      · exact Or.inr (List.mem_cons_of_mem _ h2)
    · rcases List.mem_cons.mp h with rfl | h2
      · exact Or.inr (List.mem_cons_self _ _)
      · rcases ih h2 with h3 | h3
        · exact Or.inl h3
        · exact Or.inr (List.mem_cons_of_mem _ h3)

theorem idxDel_value_perm {l : List (String × Ticket)} {k : String} {t : Ticket}
    (hnd : (l.map (fun p => p.1)).Nodup) (hm : (k, t) ∈ l) :
    (l.map (fun p => p.2)).Perm (t :: (idxDel l k).map (fun p => p.2)) := by
  induction l with
  | nil => simp at hm
  | cons x xs ih =>
    rw [List.map_cons, List.nodup_cons] at hnd
    by_cases hx : x.1 = k
    · rw [idxDel, if_pos (beq_iff_eq.mpr hx)]
      rcases List.mem_cons.mp hm with rfl | hm2
      · exact List.Perm.refl _
      · exfalso
        apply hnd.1
        rw [hx]
        exact List.mem_map_of_mem (fun p => p.1) hm2
    · rw [idxDel, if_neg (by simp [hx])]
      have hm2 : (k, t) ∈ xs := by
        rcases List.mem_cons.mp hm with he | hm2
        · exact absurd (congrArg Prod.fst he).symm hx
        · exact hm2
      simp only [List.map_cons]
      exact ((ih hnd.2 hm2).cons x.2).trans (List.Perm.swap _ _ _)

theorem removeFirstEq_perm {heap : List Ticket} {old : Ticket}
    (hmem : old ∈ heap) (hts : (heap.map (fun t => t.timestamp)).Nodup) :
    heap.Perm (old :: removeFirstEq heap old) := by
  unfold removeFirstEq
  have hpold : (fun x => if teq x old then true else false) old = true := by
    simp [teq]
  obtain ⟨a, l1, l2, hnotp, hpa, hdecomp, herase⟩ :=
    @List.exists_of_eraseP Ticket (fun x => if teq x old then true else false)
      heap old hmem hpold
  have hats : a.timestamp = old.timestamp := by
    by_cases hteq : teq a old
    · exact hteq.2
    · exfalso
      simp only [if_neg hteq] at hpa
      exact Bool.false_ne_true hpa
  have hamem : a ∈ heap := by
    rw [hdecomp]
    exact List.mem_append_right _ (List.mem_cons_self _ _)
  have haold : a = old := map_nodup_unique hts hamem hmem hats
  rw [herase]
  conv_lhs => rw [hdecomp]
  rw [haold]
  exact List.perm_middle

end PQ

namespace PQ

theorem applyOp_inv {st : PQState} {op : Op} (hInv : Inv st) (hok : opOK st op) :
    Inv (applyOp st op) := by
  obtain ⟨hperm, hkeys, hcons, hts⟩ := hInv
  cases op with
  | clear =>
    exact ⟨List.Perm.refl _, List.nodup_nil, fun p hp => absurd hp (List.not_mem_nil p),
      List.nodup_nil⟩
  | enq p ts tid su d c u =>
    have hok2 : idxContains st.index tid = false ∧ ts ∉ tsOf st := hok
    obtain ⟨hfresh, htsfresh⟩ := hok2
    simp only [applyOp, enqueue]
    have hpush : (heappush st.heap (mkTicket p ts tid su d c u)).Perm
        (mkTicket p ts tid su d c u :: st.heap) := heappush_perm _ _
    have hset : idxSet st.index (mkTicket p ts tid su d c u).ticket_id
        (mkTicket p ts tid su d c u)
        = st.index ++ [((mkTicket p ts tid su d c u).ticket_id,
            mkTicket p ts tid su d c u)] :=
      idxSet_fresh _ hfresh
    refine ⟨?_, ?_, ?_, ?_⟩
    · show (heappush st.heap (mkTicket p ts tid su d c u)).Perm _
      rw [hset, List.map_append]
      refine hpush.trans ?_
      exact ((hperm.cons _).trans (List.perm_append_singleton _ _).symm)
    · show ((idxSet st.index (mkTicket p ts tid su d c u).ticket_id
        (mkTicket p ts tid su d c u)).map (fun p => p.1)).Nodup
      rw [hset, List.map_append]
      refine List.Nodup.append hkeys (by simp) ?_
      intro x hx hx2
      simp only [List.map_cons, List.map_nil, List.mem_singleton] at hx2
      subst hx2
      exact idxContains_false_not_mem hfresh hx
    · intro q hq
      have hq2 : q ∈ st.index ++ [((mkTicket p ts tid su d c u).ticket_id,
          mkTicket p ts tid su d c u)] := hset ▸ hq
      rcases List.mem_append.mp hq2 with h1 | h1
      · exact hcons q h1
      · obtain rfl := List.mem_singleton.mp h1
        rfl
    · show ((heappush st.heap (mkTicket p ts tid su d c u)).map
        (fun x => x.timestamp)).Nodup
      rw [List.Perm.nodup_iff (hpush.map (fun x => x.timestamp))]
      simp only [List.map_cons]
      rw [List.nodup_cons]
      exact ⟨htsfresh, hts⟩
  | deq =>
    simp only [applyOp]
    unfold dequeue
    split_ifs with h0
    · exact ⟨hperm, hkeys, hcons, hts⟩
    · have hne : st.heap ≠ [] := by
        intro hcontra
        rw [hcontra] at h0
        exact h0 rfl
      obtain ⟨t, hrest, hpop, hpp⟩ := heappop_spec st.heap hne
      rw [hpop]
      dsimp only
      have htmem : t ∈ st.heap := (hpp.mem_iff).mp (List.mem_cons_self _ _)
      have htval : t ∈ st.index.map (fun p => p.2) := (hperm.mem_iff).mp htmem
      obtain ⟨q, hq, hqt⟩ := List.mem_map.mp htval
      have hqk : q.1 = t.ticket_id := by
        rw [← hcons q hq, hqt]
      have hentry : (t.ticket_id, t) ∈ st.index := by
        have hqe : q = (t.ticket_id, t) := Prod.ext hqk hqt
        rw [← hqe]
        exact hq
      have hcont : idxContains st.index t.ticket_id = true :=
        idxContains_true_of_mem hentry
      rw [if_pos hcont]
      have hdel := idxDel_value_perm hkeys hentry
      refine ⟨?_, ?_, ?_, ?_⟩
      · exact (hpp.trans (hperm.trans hdel)).cons_inv
      · exact List.Nodup.sublist (idxDel_keys_sublist _ _) hkeys
      · intro q2 hq2
        exact hcons q2 (idxDel_subset hq2)
      · have hnd : ((t :: hrest).map (fun x => x.timestamp)).Nodup :=
          (List.Perm.nodup_iff (hpp.map (fun x => x.timestamp))).mpr hts
        rw [List.map_cons, List.nodup_cons] at hnd
        exact hnd.2
  | upd tid p =>
    simp only [applyOp]
    unfold updatePriority
    cases hg : idxGet st.index tid with
    | none => exact ⟨hperm, hkeys, hcons, hts⟩
    | some old =>
      dsimp only
      simp only [enqueue]
      obtain ⟨q, hq, hqk, hqv⟩ := idxGet_some_mem hg
      have hoid : old.ticket_id = tid := by
        rw [← hqv, hcons q hq, hqk]
      have homem : old ∈ st.heap :=
        (hperm.mem_iff).mpr (List.mem_map.mpr ⟨q, hq, hqv⟩)
      have hrfe : st.heap.Perm (old :: removeFirstEq st.heap old) :=
        removeFirstEq_perm homem hts
      have hpush : (heappush (pyHeapify (removeFirstEq st.heap old))
          (mkTicket p old.timestamp old.ticket_id old.subject old.description
            old.category old.urgency)).Perm
          (mkTicket p old.timestamp old.ticket_id old.subject old.description
            old.category old.urgency :: removeFirstEq st.heap old) :=
        (heappush_perm _ _).trans ((pyHeapify_perm _).cons _)
      have hg2 : idxGet st.index (mkTicket p old.timestamp old.ticket_id old.subject
          old.description old.category old.urgency).ticket_id = some old := by
        rw [show (mkTicket p old.timestamp old.ticket_id old.subject old.description
          old.category old.urgency).ticket_id = tid from hoid]
        exact hg
      obtain ⟨hi1, hi2, hi3⟩ := idx_replace hg2
        (mkTicket p old.timestamp old.ticket_id old.subject old.description
          old.category old.urgency)
      have hcancel : (removeFirstEq st.heap old).Perm
          ((idxDel st.index (mkTicket p old.timestamp old.ticket_id old.subject
            old.description old.category old.urgency).ticket_id).map (fun p => p.2)) :=
        (hrfe.symm.trans (hperm.trans hi2)).cons_inv
      refine ⟨?_, ?_, ?_, ?_⟩
      · exact hpush.trans ((hcancel.cons _).trans hi1.symm)
      · show ((idxSet st.index (mkTicket p old.timestamp old.ticket_id old.subject
          old.description old.category old.urgency).ticket_id
          (mkTicket p old.timestamp old.ticket_id old.subject old.description
            old.category old.urgency)).map (fun p => p.1)).Nodup
        rw [hi3]
        exact hkeys
      · intro q2 hq2
        rcases mem_idxSet hq2 with rfl | h1
        · rfl
        · exact hcons q2 h1
      · show ((heappush (pyHeapify (removeFirstEq st.heap old))
          (mkTicket p old.timestamp old.ticket_id old.subject old.description
            old.category old.urgency)).map (fun x => x.timestamp)).Nodup
        rw [List.Perm.nodup_iff (hpush.map (fun x => x.timestamp))]
        simp only [List.map_cons]
        have hnd : ((old :: removeFirstEq st.heap old).map
            (fun x => x.timestamp)).Nodup :=
          (List.Perm.nodup_iff (hrfe.map (fun x => x.timestamp))).mp hts
        rw [List.map_cons] at hnd
        exact hnd

theorem Inv_emptyPQ : Inv emptyPQ :=
  ⟨List.Perm.refl _, List.nodup_nil, fun p hp => absurd hp (List.not_mem_nil p),
    List.nodup_nil⟩

theorem applyOps_inv : ∀ (ops : List Op) (st : PQState), Inv st → opsOK st ops →
    Inv (applyOps st ops)
  | [], _, hInv, _ => hInv
  | op :: rest, st, hInv, hok => by
    have hok2 : opOK st op ∧ opsOK (applyOp st op) rest := hok
    have h1 : Inv (applyOp st op) := applyOp_inv hInv hok2.1
    have h2 := applyOps_inv rest (applyOp st op) h1 hok2.2
    rw [applyOps, List.foldl_cons] at *
    exact h2

end PQ

/-- Claim C8 (amended): after any sequence of enqueue, dequeue,
update_priority and clear starting from the empty queue, provided every
enqueue carries a ticket id absent from the index AND a timestamp absent
from the heap, size() equals the number of index entries and the heap is a
permutation of the index's ticket values (the same multiset of tickets);
after clear both are 0.  Distinct ids alone do NOT suffice (see the
counterexample): list.remove compares by the dataclass's (priority,
timestamp) compare fields, so distinct timestamps are also required. -/
theorem C8_amended (ops : List PQ.Op) (hok : PQ.opsOK PQ.emptyPQ ops) :
    PQ.sizePQ (PQ.applyOps PQ.emptyPQ ops)
      = (PQ.applyOps PQ.emptyPQ ops).index.length ∧
    (PQ.applyOps PQ.emptyPQ ops).heap.Perm
      ((PQ.applyOps PQ.emptyPQ ops).index.map (fun p => p.2)) ∧
    PQ.sizePQ (PQ.applyOps PQ.emptyPQ (ops ++ [PQ.Op.clear])) = 0 ∧
    (PQ.applyOps PQ.emptyPQ (ops ++ [PQ.Op.clear])).index.length = 0 := by
  have hInv := PQ.applyOps_inv ops PQ.emptyPQ PQ.Inv_emptyPQ hok
  obtain ⟨hperm, _, _, _⟩ := hInv
  refine ⟨?_, hperm, ?_, ?_⟩
  · show (PQ.applyOps PQ.emptyPQ ops).heap.length = _
    rw [hperm.length_eq, List.length_map]
  · rw [PQ.applyOps, List.foldl_append]
    rfl
  · rw [PQ.applyOps, List.foldl_append]
    rfl

/-- Witness for C8_amended: a single enqueue with a fresh id and timestamp,
followed by a clear. -/
theorem C8_amended_witness :
    PQ.sizePQ (PQ.applyOps PQ.emptyPQ [PQ.Op.enq 1 0 "a" "s" "d" "c" 0])
      = (PQ.applyOps PQ.emptyPQ [PQ.Op.enq 1 0 "a" "s" "d" "c" 0]).index.length ∧
    (PQ.applyOps PQ.emptyPQ [PQ.Op.enq 1 0 "a" "s" "d" "c" 0]).heap.Perm
      ((PQ.applyOps PQ.emptyPQ
        [PQ.Op.enq 1 0 "a" "s" "d" "c" 0]).index.map (fun p => p.2)) ∧
    PQ.sizePQ (PQ.applyOps PQ.emptyPQ
      ([PQ.Op.enq 1 0 "a" "s" "d" "c" 0] ++ [PQ.Op.clear])) = 0 ∧
    (PQ.applyOps PQ.emptyPQ
      ([PQ.Op.enq 1 0 "a" "s" "d" "c" 0] ++ [PQ.Op.clear])).index.length = 0 :=
  C8_amended [PQ.Op.enq 1 0 "a" "s" "d" "c" 0]
    (by exact ⟨⟨rfl, by simp [PQ.tsOf, PQ.emptyPQ]⟩, trivial⟩)
